import Mathlib

/-!
Shallow embedding of the elasticsearch flattened-field benchmark generators
(`generate_bulk.py`, `generate_queries.py`, `index_data.py`) together with
proofs about the behaviours the specification describes.

Modelling conventions:

* Python floats are modelled as exact rationals (`ℚ`); the idealized real
  semantics of the probability computations is captured exactly.
* Python dicts are modelled as insertion-ordered association lists with
  insert-or-update assignment (`dictInsert`), matching CPython semantics.
* `random.Random` is Python standard-library code, external to the
  repository.  It is modelled as a deterministic state machine (a 64-bit
  linear congruential step stands in for the Mersenne Twister).  The
  repository-level properties proved below rely only on determinism (the
  state is a pure function of the seed and the number of draws) and on the
  documented API contracts of the stdlib (`randint` stays inside `[a, b]`
  and raises on an empty range, `sample` draws without replacement and
  raises when the requested size exceeds the population, `choices` raises
  when the weight list length differs from the population length), all of
  which the model satisfies.
* Python's built-in string `hash` is salted per process (it is not stable
  across process runs).  It is therefore modelled as an explicit parameter
  `h : String → ℤ` of the generators: each process run corresponds to one
  such function.
* Fallible operations return `Except String`.
-/

/-- Decidable equality for `Except`, needed to evaluate concrete runs of the
generators inside proofs. -/
instance {ε α : Type} [DecidableEq ε] [DecidableEq α] : DecidableEq (Except ε α) := fun a b =>
  match a, b with
  | .error e, .error f =>
    if h : e = f then .isTrue (by rw [h]) else .isFalse (by intro hh; cases hh; exact h rfl)
  | .error _, .ok _ => .isFalse (by intro hh; cases hh)
  | .ok _, .error _ => .isFalse (by intro hh; cases hh)
  | .ok x, .ok y =>
    if h : x = y then .isTrue (by rw [h]) else .isFalse (by intro hh; cases hh; exact h rfl)

/-- Python dict assignment `d[k] = v` on an insertion-ordered dict, modelled
on an association list: update the entry in place when the key is already
present, append a new entry otherwise. -/
def dictInsert {α : Type} (d : List (String × α)) (k : String) (v : α) :
    List (String × α) :=
  if k ∈ d.map Prod.fst then
    d.map (fun p => if p.1 = k then (k, v) else p)
  else d ++ [(k, v)]

/-- Lookup after the in-place-update pass used by `dictInsert` on a present
key. -/
theorem lookup_map_update {α : Type} (d : List (String × α)) (k : String) (v : α)
    (k' : String) :
    (d.map (fun p => if p.1 = k then (k, v) else p)).lookup k'
      = if k' = k then (if k ∈ d.map Prod.fst then some v else none)
        else d.lookup k' := by
  induction d with
  | nil =>
    by_cases h : k' = k
    · subst h; simp [List.lookup]
    · have hb : (k' == k) = false := beq_eq_false_iff_ne.mpr h
      simp [List.lookup, hb, h]
  | cons a t ih =>
    obtain ⟨a1, a2⟩ := a
    by_cases hak : a1 = k
    · subst hak
      by_cases hk' : k' = a1
      · subst hk'; simp [List.lookup_cons, ih]
      · have hb : (k' == a1) = false := beq_eq_false_iff_ne.mpr hk'
        simp [List.lookup_cons, hb, hk', ih]
    · by_cases hk'a : k' = a1
      · subst hk'a
        have hne : ¬ k' = k := hak
        simp [List.lookup_cons, hak, hne]
      · have hb : (k' == a1) = false := beq_eq_false_iff_ne.mpr hk'a
        have hka : ¬ k = a1 := fun hh => hak hh.symm
        have hmm : (k ∈ a1 :: List.map Prod.fst t) ↔ (k ∈ List.map Prod.fst t) := by
          simp [List.mem_cons, hka]
        have hif : (if k ∈ a1 :: List.map Prod.fst t then some v else (none : Option α))
            = (if k ∈ List.map Prod.fst t then some v else none) := if_congr hmm rfl rfl
        simp only [List.map_cons, List.lookup_cons, hb, if_neg hak, cond_false]
        rw [hif] at *
        simp [List.lookup_cons, hb, ih]

/-- Lookup after appending a fresh key-value pair. -/
theorem lookup_append_single {α : Type} (d : List (String × α)) (k : String) (v : α)
    (k' : String) (hmem : k ∉ d.map Prod.fst) :
    (d ++ [(k, v)]).lookup k' = if k' = k then some v else d.lookup k' := by
  induction d with
  | nil =>
    by_cases h : k' = k
    · subst h; simp [List.lookup]
    · have hb : (k' == k) = false := beq_eq_false_iff_ne.mpr h
      simp [List.lookup, hb, h]
  | cons a t ih =>
    obtain ⟨a1, a2⟩ := a
    have hmem' : k ∉ t.map Prod.fst := fun hh => hmem (by simp [hh])
    have hak : a1 ≠ k := fun hh => hmem (by simp [hh])
    by_cases hk'a : k' = a1
    · subst hk'a
      have hne : ¬ k' = k := hak
      simp [List.lookup_cons, hne]
    · have hb : (k' == a1) = false := beq_eq_false_iff_ne.mpr hk'a
      simp [List.lookup_cons, hb, hk'a, ih hmem']

/-- Looking a key up after a `dictInsert` finds the inserted value for that
key and is unchanged for every other key. -/
theorem dictInsert_lookup {α : Type} (d : List (String × α)) (k : String) (v : α)
    (k' : String) :
    (dictInsert d k v).lookup k' = if k' = k then some v else d.lookup k' := by
  unfold dictInsert
  split
  · rename_i hmem
    rw [lookup_map_update]
    simp [hmem]
  · rename_i hmem
    exact lookup_append_single d k v k' hmem

/-- The keys after a `dictInsert` are the old keys when the key was present,
and the old keys with the new key appended otherwise. -/
theorem dictInsert_keys {α : Type} (d : List (String × α)) (k : String) (v : α) :
    (dictInsert d k v).map Prod.fst =
      if k ∈ d.map Prod.fst then d.map Prod.fst else d.map Prod.fst ++ [k] := by
  unfold dictInsert
  split
  · rename_i hmem
    simp only [if_pos hmem, List.map_map]
    apply List.map_congr_left
    intro p _
    by_cases hp : p.1 = k <;> simp [hp]
  · rename_i hmem
    simp [hmem]

/-- Model of Python's `random.Random` pseudo-random generator.  The Mersenne
Twister internals are Python standard-library code, external to this
repository; a 64-bit linear congruential step stands in for them.  Every
property proved below depends only on the generator being a deterministic
pure function of its seed and draw count, plus the documented stdlib API
contracts, which this model satisfies. -/
structure PyRandom where
  state : ℕ
deriving DecidableEq

/-- Constructor `random.Random(seed)`. -/
def mkRandom (seed : ℤ) : PyRandom :=
  ⟨(seed.emod (2 ^ 64)).toNat⟩

/-- One step of the pseudo-random stream: returns a raw draw and the
advanced generator. -/
def PyRandom.next (r : PyRandom) : ℕ × PyRandom :=
  let s := (6364136223846793005 * r.state + 1442695040888963407) % 2 ^ 64
  (s / 2 ^ 33, ⟨s⟩)

/-- Python `rng.randint(a, b)`: a draw in the inclusive range `[a, b]`;
raises `ValueError` on an empty range (`a > b`). -/
def PyRandom.randint (r : PyRandom) (a b : ℤ) : Except String (ℤ × PyRandom) :=
  if b < a then .error "empty range for randrange"
  else
    let (u, r') := r.next
    .ok (a + (u : ℤ) % (b - a + 1), r')

/-- Python `rng.choices(population, weights, k=1)` restricted to one draw:
raises `ValueError` when the weight list length differs from the population
length; otherwise returns one element of the population.  Which element is
returned depends on the generator state; the weights shape only the
distribution, which no repository-level claim inspects. -/
def PyRandom.choices1 (r : PyRandom) (population : List String) (weights : List ℚ) :
    Except String (String × PyRandom) :=
  if population.length ≠ weights.length then
    .error "The number of weights does not match the population"
  else
    match population with
    | [] => .error "Cannot choose from an empty population"
    | p :: ps =>
      let (u, r') := r.next
      .ok ((p :: ps).getD (u % (p :: ps).length) p, r')

/-- Selection loop of Python `rng.sample`: draws `k` elements without
replacement by repeatedly removing a drawn position. -/
def sampleGo : ℕ → List String → PyRandom → List String × PyRandom
  | 0, _, r => ([], r)
  | _ + 1, [], r => ([], r)
  | k + 1, p :: ps, r =>
    let (u, r') := r.next
    let idx := u % (p :: ps).length
    let chosen := (p :: ps).getD idx p
    let rest := (p :: ps).eraseIdx idx
    let (others, r'') := sampleGo k rest r'
    (chosen :: others, r'')

/-- Python `rng.sample(population, k)`: raises `ValueError` when the
requested size is negative or exceeds the population size; otherwise draws
`k` distinct positions without replacement. -/
def PyRandom.sampleK (r : PyRandom) (population : List String) (k : ℤ) :
    Except String (List String × PyRandom) :=
  if k < 0 ∨ (population.length : ℤ) < k then
    .error "Sample larger than population or is negative"
  else .ok (sampleGo k.toNat population r)

/-- Per-field sampler seed derivation used identically by both generators:
`seed + hash(field_name) % (2**31)`.  Python's built-in string hash is
salted per process, so it enters the model as the function `h`. -/
def field_seed (seed : ℤ) (h : String → ℤ) (field_name : String) : ℤ :=
  seed + (h field_name).emod (2 ^ 31)

/-- Document identifier `doc-<seq>` with the sequence number zero-padded to
six digits (`f"doc-{doc_id:06d}"`). -/
def docIdStr (doc_id : ℕ) : String :=
  let s := toString doc_id
  "doc-" ++ String.mk (List.replicate (6 - s.length) '0') ++ s

/-- The two document-modeling strategies.  The source dispatches on the ad
hoc string tags "keyword" and "flattened"; the unknown-mode `ValueError`
branches are unreachable for these two values. -/
inductive Mode where
  | keyword
  | flattened
deriving DecidableEq

/-- Field catalog: insertion-ordered mapping from field name to the ordered
candidate value list, as loaded from the fields JSON file. -/
abbrev Catalog := List (String × List String)

/-- Index-creation payload written as line 1 of the corpus file. -/
structure IndexPayload where
  index : String
  number_of_shards : ℕ
  number_of_replicas : ℕ
  dynamic : Bool
  properties : List (String × String)
deriving DecidableEq

/-- A generated document: keyword mode stores a flat attribute dict, while
flattened mode stores the identifier plus a nested `data` dict. -/
inductive Document where
  | keywordDoc (attrs : List (String × String))
  | flattenedDoc (docId : String) (data : List (String × String))
deriving DecidableEq

/-- The value of a document's `id` attribute. -/
def docIdValue : Document → Option String
  | .keywordDoc attrs => attrs.lookup "id"
  | .flattenedDoc docId _ => some docId

/-- One line of the bulk JSONL corpus file. -/
inductive BulkLine where
  | payloadLine (p : IndexPayload)
  | actionLine (indexName docId : String)
  | docLine (d : Document)
deriving DecidableEq

/-- A generated filter-only query: target index, the always-disabled
total-hits tracking flag, and the ordered term filters (term path paired
with the sampled value). -/
structure Query where
  index : String
  track_total_hits : Bool
  filter : List (String × String)
deriving DecidableEq

namespace GenerateBulk

/-- Skewed (medium) rank probabilities for `num_values` values, translated
from `generate_bulk.compute_skewed_probabilities`.  Python floats are
modelled as exact rationals; Python's 1-indexed comprehension
`[0.85 ** (i - 1) for i in range(1, tail_size + 1)]` is the map over
`List.range' 1 tail_size`.  For `num_values = 0` the Python code falls
through to the final branch with an empty tail (`range(1, -2)` is empty)
and returns just the fixed head, exactly as here (`0 - 3 = 0` in ℕ). -/
def compute_skewed_probabilities (num_values : ℕ) : List ℚ :=
  if num_values = 1 then [1]
  else if num_values = 2 then [3/10, 7/10]
  else if num_values = 3 then [3/10, 1/5, 1/2]
  else
    let tail_size := num_values - 3
    let tail_weights := (List.range' 1 tail_size).map (fun i => ((17 : ℚ)/20) ^ (i - 1))
    let tail_sum := tail_weights.sum
    let tail_probs := tail_weights.map (fun w => (2/5) * (w / tail_sum))
    [3/10, 1/5, 1/10] ++ tail_probs

/-- Deterministic, seeded sampler using the skewed distribution
(`generate_bulk.SkewedSampler`). -/
structure SkewedSampler where
  values : List String
  rng : PyRandom
  probs : List ℚ
deriving DecidableEq

/-- Constructor `SkewedSampler(values, seed)`. -/
def SkewedSampler.init (values : List String) (seed : ℤ) : SkewedSampler :=
  ⟨values, mkRandom seed, compute_skewed_probabilities values.length⟩

/-- Method `SkewedSampler.sample`: one weighted draw via
`rng.choices(values, weights=probs, k=1)[0]`, advancing the sampler's
generator state. -/
def SkewedSampler.sample (s : SkewedSampler) : Except String (String × SkewedSampler) :=
  match s.rng.choices1 s.values s.probs with
  | .error e => .error e
  | .ok (v, r') => .ok (v, ⟨s.values, r', s.probs⟩)

/-- The sequence of `n` successive draws from a sampler. -/
def sampleN (s : SkewedSampler) : ℕ → Except String (List String)
  | 0 => .ok []
  | n + 1 =>
    match s.sample with
    | .error e => .error e
    | .ok (v, s') =>
      match sampleN s' n with
      | .error e => .error e
      | .ok rest => .ok (v :: rest)

/-- The sequence of `n` draws from a freshly constructed sampler; a pure
function of the `(values, seed)` pair. -/
def drawSeq (values : List String) (seed : ℤ) (n : ℕ) : Except String (List String) :=
  sampleN (SkewedSampler.init values seed) n

/-- Index-creation payload (`generate_bulk.create_index_payload`): one
shard, one replica; keyword mode maps `id` plus every catalog field as
`keyword`, flattened mode maps only `id` as `keyword` and `data` as
`flattened`, both with dynamic mapping disabled. -/
def create_index_payload (index_name : String) (mode : Mode) (fields : Catalog) :
    IndexPayload :=
  match mode with
  | .keyword =>
    let properties :=
      fields.foldl (fun d p => dictInsert d p.1 "keyword") [("id", "keyword")]
    ⟨index_name, 1, 1, false, properties⟩
  | .flattened =>
    ⟨index_name, 1, 1, false, [("id", "keyword"), ("data", "flattened")]⟩

/-- The per-field sampler dict built at the start of a generation run. -/
abbrev Samplers := List (String × SkewedSampler)

/-- Sampler construction loop of `generate_bulk.generate_bulk`:
`samplers[field_name] = SkewedSampler(values, seed + hash(field_name) % 2**31)`
for each catalog entry in order. -/
def buildSamplers (fields : Catalog) (seed : ℤ) (h : String → ℤ) : Samplers :=
  fields.foldl
    (fun smps p => dictInsert smps p.1 (SkewedSampler.init p.2 (field_seed seed h p.1)))
    []

/-- Dict access `samplers[field_name].sample()`: looks the field's sampler
up, draws once, and stores the advanced sampler back. -/
def sampleField (f : String) (smps : Samplers) : Except String (String × Samplers) :=
  match smps.lookup f with
  | none => .error "KeyError"
  | some sp =>
    match sp.sample with
    | .error e => .error e
    | .ok (v, sp') => .ok (v, dictInsert smps f sp')

/-- Field loop of `generate_bulk.generate_document`: for each catalog field
in order, draw one value and assign it into the target dict. -/
def fillDict (smps : Samplers) (acc : List (String × String)) :
    Catalog → Except String (List (String × String) × Samplers)
  | [] => .ok (acc, smps)
  | p :: rest =>
    match sampleField p.1 smps with
    | .error e => .error e
    | .ok (v, smps') => fillDict smps' (dictInsert acc p.1 v) rest

/-- Document synthesis (`generate_bulk.generate_document`): keyword mode
assigns each sampled value as a top-level attribute of a dict initialised
with `{"id": doc_id_str}` (so a catalog field literally named `id`
overwrites the identifier); flattened mode nests all sampled values under
`data`, leaving the identifier untouched. -/
def generate_document (doc_id : ℕ) (mode : Mode) (fields : Catalog) (smps : Samplers) :
    Except String (Document × Samplers) :=
  let doc_id_str := docIdStr doc_id
  match mode with
  | .keyword =>
    match fillDict smps [("id", doc_id_str)] fields with
    | .error e => .error e
    | .ok (attrs, smps') => .ok (.keywordDoc attrs, smps')
  | .flattened =>
    match fillDict smps [] fields with
    | .error e => .error e
    | .ok (data, smps') => .ok (.flattenedDoc doc_id_str data, smps')

/-- Document loop of `generate_bulk.generate_bulk`: for each sequence number
write the action-metadata line and then the document line. -/
def bulkLoop (mode : Mode) (index_name : String) (fields : Catalog) :
    ℕ → ℕ → Samplers → Except String (List BulkLine × Samplers)
  | _, 0, smps => .ok ([], smps)
  | doc_id, n + 1, smps =>
    match generate_document doc_id mode fields smps with
    | .error e => .error e
    | .ok (d, smps') =>
      match bulkLoop mode index_name fields (doc_id + 1) n smps' with
      | .error e => .error e
      | .ok (rest, smps'') =>
        .ok (.actionLine index_name (docIdStr doc_id) :: .docLine d :: rest, smps'')

/-- Post-write verification of `generate_bulk.generate_bulk`: re-count the
lines and fail (non-zero exit with a diagnostic) when the count differs
from `1 + doc_count * 2`. -/
def verify_line_count (lines : List BulkLine) (doc_count : ℕ) : Except String Unit :=
  if lines.length = 1 + doc_count * 2 then .ok ()
  else .error "line count mismatch"

/-- Corpus generation (`generate_bulk.generate_bulk`): line 1 is the
index-creation payload, followed by alternating action and document lines
for sequence numbers `1 .. doc_count`, then the line-count verification. -/
def generate_bulk (mode : Mode) (index_name : String) (fields : Catalog)
    (doc_count : ℕ) (seed : ℤ) (h : String → ℤ) : Except String (List BulkLine) :=
  let payload := create_index_payload index_name mode fields
  let samplers := buildSamplers fields seed h
  match bulkLoop mode index_name fields 1 doc_count samplers with
  | .error e => .error e
  | .ok (body, _) =>
    let lines := BulkLine.payloadLine payload :: body
    match verify_line_count lines doc_count with
    | .error e => .error e
    | .ok _ => .ok lines

end GenerateBulk

namespace GenerateQueries

/-- Skewed (medium) rank probabilities, translated from
`generate_queries.compute_skewed_probabilities` (a byte-for-byte duplicate
of the function in `generate_bulk.py`, kept "for consistency"). -/
def compute_skewed_probabilities (num_values : ℕ) : List ℚ :=
  if num_values = 1 then [1]
  else if num_values = 2 then [3/10, 7/10]
  else if num_values = 3 then [3/10, 1/5, 1/2]
  else
    let tail_size := num_values - 3
    let tail_weights := (List.range' 1 tail_size).map (fun i => ((17 : ℚ)/20) ^ (i - 1))
    let tail_sum := tail_weights.sum
    let tail_probs := tail_weights.map (fun w => (2/5) * (w / tail_sum))
    [3/10, 1/5, 1/10] ++ tail_probs

/-- Deterministic, seeded sampler (`generate_queries.SkewedSampler`), the
duplicate of the class in `generate_bulk.py`. -/
structure SkewedSampler where
  values : List String
  rng : PyRandom
  probs : List ℚ
deriving DecidableEq

/-- Constructor `SkewedSampler(values, seed)`. -/
def SkewedSampler.init (values : List String) (seed : ℤ) : SkewedSampler :=
  ⟨values, mkRandom seed, compute_skewed_probabilities values.length⟩

/-- Method `SkewedSampler.sample`. -/
def SkewedSampler.sample (s : SkewedSampler) : Except String (String × SkewedSampler) :=
  match s.rng.choices1 s.values s.probs with
  | .error e => .error e
  | .ok (v, r') => .ok (v, ⟨s.values, r', s.probs⟩)

/-- The sequence of `n` successive draws from a sampler. -/
def sampleN (s : SkewedSampler) : ℕ → Except String (List String)
  | 0 => .ok []
  | n + 1 =>
    match s.sample with
    | .error e => .error e
    | .ok (v, s') =>
      match sampleN s' n with
      | .error e => .error e
      | .ok rest => .ok (v :: rest)

/-- The sequence of `n` draws from a freshly constructed sampler. -/
def drawSeq (values : List String) (seed : ℤ) (n : ℕ) : Except String (List String) :=
  sampleN (SkewedSampler.init values seed) n

/-- The per-field sampler dict. -/
abbrev Samplers := List (String × SkewedSampler)

/-- Sampler construction loop of `generate_queries.generate_queries`,
identical to the one in `generate_bulk.generate_bulk`. -/
def buildSamplers (fields : Catalog) (seed : ℤ) (h : String → ℤ) : Samplers :=
  fields.foldl
    (fun smps p => dictInsert smps p.1 (SkewedSampler.init p.2 (field_seed seed h p.1)))
    []

/-- Dict access `samplers[field_name].sample()`. -/
def sampleField (f : String) (smps : Samplers) : Except String (String × Samplers) :=
  match smps.lookup f with
  | none => .error "KeyError"
  | some sp =>
    match sp.sample with
    | .error e => .error e
    | .ok (v, sp') => .ok (v, dictInsert smps f sp')

/-- Value-sampling loop of `generate_queries.generate_queries`:
`field_values[field_name] = samplers[field_name].sample()` for each
selected field in order. -/
def sampleSelected (smps : Samplers) (acc : List (String × String)) :
    List String → Except String (List (String × String) × Samplers)
  | [] => .ok (acc, smps)
  | f :: rest =>
    match sampleField f smps with
    | .error e => .error e
    | .ok (v, smps') => sampleSelected smps' (dictInsert acc f v) rest

/-- Term-building loop of `generate_queries.generate_query`: keyword mode
uses the bare field name as the term path, flattened mode uses
`data.<field name>`; reading a field missing from `field_values` would be a
Python `KeyError`. -/
def buildTerms (mode : Mode) (field_values : List (String × String)) :
    List String → Except String (List (String × String))
  | [] => .ok []
  | f :: rest =>
    match field_values.lookup f with
    | none => .error "KeyError"
    | some v =>
      match buildTerms mode field_values rest with
      | .error e => .error e
      | .ok terms =>
        match mode with
        | .keyword => .ok ((f, v) :: terms)
        | .flattened => .ok (("data." ++ f, v) :: terms)

/-- Query synthesis (`generate_queries.generate_query`): a filter-only
query body with `track_total_hits` disabled. -/
def generate_query (index_name : String) (mode : Mode) (field_names : List String)
    (field_values : List (String × String)) : Except String Query :=
  match buildTerms mode field_values field_names with
  | .error e => .error e
  | .ok filter_terms => .ok ⟨index_name, false, filter_terms⟩

/-- Per-query loop of `generate_queries.generate_queries`: draw the filter
count, select that many distinct fields, sample one value per selected
field, and build the keyword-mode and flattened-mode queries from the same
selection. -/
def queryLoop (keyword_index flattened_index : String) (field_names_list : List String)
    (min_filters max_filters : ℤ) :
    ℕ → Samplers → PyRandom → Except String (List Query × List Query)
  | 0, _, _ => .ok ([], [])
  | n + 1, smps, rng =>
    match rng.randint min_filters max_filters with
    | .error e => .error e
    | .ok (num_filters, rng') =>
      match rng'.sampleK field_names_list num_filters with
      | .error e => .error e
      | .ok (selected_fields, rng'') =>
        match sampleSelected smps [] selected_fields with
        | .error e => .error e
        | .ok (field_values, smps') =>
          match generate_query keyword_index .keyword selected_fields field_values with
          | .error e => .error e
          | .ok kw_query =>
            match generate_query flattened_index .flattened selected_fields field_values with
            | .error e => .error e
            | .ok flat_query =>
              match queryLoop keyword_index flattened_index field_names_list
                  min_filters max_filters n smps' rng'' with
              | .error e => .error e
              | .ok (kws, fls) => .ok (kw_query :: kws, flat_query :: fls)

/-- Query-set generation (`generate_queries.generate_queries`): builds the
per-field samplers and the query-level generator from the same base seed,
runs the per-query loop, then performs the source's post-write assertions
(`len == query_count` for both sets, and every keyword query's filter count
inside `[min_filters, max_filters]`). -/
def generate_queries (keyword_index flattened_index : String) (fields : Catalog)
    (query_count : ℕ) (min_filters max_filters : ℤ) (seed : ℤ) (h : String → ℤ) :
    Except String (List Query × List Query) :=
  let samplers := buildSamplers fields seed h
  let rng := mkRandom seed
  let field_names_list := fields.map Prod.fst
  match queryLoop keyword_index flattened_index field_names_list
      min_filters max_filters query_count samplers rng with
  | .error e => .error e
  | .ok (keyword_queries, flattened_queries) =>
    if keyword_queries.length ≠ query_count then .error "AssertionError: Expected queries"
    else if flattened_queries.length ≠ query_count then .error "AssertionError: Expected queries"
    else if ¬ (keyword_queries.all fun q =>
        decide (min_filters ≤ (q.filter.length : ℤ)) &&
        decide ((q.filter.length : ℤ) ≤ max_filters)) then
      .error "AssertionError"
    else .ok (keyword_queries, flattened_queries)

end GenerateQueries

namespace IndexData

/-- An Elasticsearch `_bulk` HTTP response, reduced to what
`index_data.bulk_ingest` inspects: the HTTP status and the per-item index
statuses. -/
structure BulkResponse where
  status : ℕ
  itemStatuses : List ℕ
deriving DecidableEq

/-- Externally visible side effects of `bulk_ingest` on the search engine:
settings updates of `index.refresh_interval` and chunk uploads. -/
inductive NetEvent where
  | putSettings (refresh_interval : String)
  | postBulk (chunkStart : ℕ)
deriving DecidableEq

/-- Final outcome of `bulk_ingest`: either the returned
`(doc_count, error_count)` pair or a process exit with the given code. -/
inductive IngestOutcome where
  | finished (doc_count error_count : ℕ)
  | exited (code : ℕ)
deriving DecidableEq

/-- Per-item counting in the chunk loop of `bulk_ingest`: statuses 200 and
201 count as indexed documents, everything else as errors. -/
def processItems (resp : BulkResponse) (doc_count error_count : ℕ) : ℕ × ℕ :=
  resp.itemStatuses.foldl
    (fun p s => if s = 200 ∨ s = 201 then (p.1 + 1, p.2) else (p.1, p.2 + 1))
    (doc_count, error_count)

/-- Chunk starts produced by `range(0, len(bulk_lines), chunk_size * 2)`
for a positive step. -/
def chunkStarts (total step : ℕ) : List ℕ :=
  (List.range ((total + step - 1) / step)).map (fun i => i * step)

/-- The chunk-upload loop of `bulk_ingest`.  `net` gives the outcome of the
HTTP POST for each chunk start: `some resp` is a response, `none` is a
raised exception (connection error or timeout).  On an exception the source
prints a diagnostic and calls `sys.exit(1)` from inside the handler,
terminating WITHOUT reaching the settings restore. -/
def ingestChunks (net : ℕ → Option BulkResponse) :
    List ℕ → ℕ → ℕ → IngestOutcome × List NetEvent
  | [], doc_count, error_count =>
    (.finished doc_count error_count, [.putSettings "1s"])
  | c :: rest, doc_count, error_count =>
    match net c with
    | none => (.exited 1, [.postBulk c])
    | some resp =>
      let (dc, ec) := processItems resp doc_count error_count
      let (out, evs) := ingestChunks net rest dc ec
      (out, .postBulk c :: evs)

/-- Bulk ingestion (`index_data.bulk_ingest`): disables
`index.refresh_interval` (sets it to `"-1"`), uploads the document lines in
chunks of `chunk_size` documents, and re-enables the interval (`"1s"`)
after the loop.  `total_lines` is the number of bulk lines after the
skipped header. -/
def bulk_ingest (total_lines chunk_size : ℕ) (net : ℕ → Option BulkResponse) :
    IngestOutcome × List NetEvent :=
  let starts := chunkStarts total_lines (chunk_size * 2)
  let (out, evs) := ingestChunks net starts 0 0
  (out, .putSettings "-1" :: evs)

/-- Whether the refresh interval is still disabled once the recorded event
trace ends: true when the last settings update set it to `"-1"`. -/
def refreshDisabledAtEnd (events : List NetEvent) : Bool :=
  events.foldl
    (fun st e =>
      match e with
      | .putSettings s => s = "-1"
      | .postBulk _ => st)
    false

end IndexData

/-- Modelled from the spec: the rank-weight rule of §4.1, stated in the
spec's own terms.  K=1 ↦ `[1.0]`; K=2 ↦ `[0.3, 0.7]`; K=3 ↦
`[0.3, 0.2, 0.5]`; for K ≥ 4 the first three ranks get `0.3, 0.2, 0.1` and
tail position `i` (1-indexed from the 4th rank) gets raw weight
`0.85^(i-1)`, normalized over the tail and scaled by the remaining `0.4`
mass: `0.4 * 0.85^(i-1) / (sum over j=1..K-3 of 0.85^(j-1))`. -/
def specRankWeights (K : ℕ) : List ℚ :=
  if K = 1 then [1]
  else if K = 2 then [3/10, 7/10]
  else if K = 3 then [3/10, 1/5, 1/2]
  else
    let tailSum := ((List.range' 1 (K - 3)).map (fun j => ((17 : ℚ)/20) ^ (j - 1))).sum
    [3/10, 1/5, 1/10] ++
      (List.range' 1 (K - 3)).map (fun i => (2/5) * ((17 : ℚ)/20) ^ (i - 1) / tailSum)

/-- Summing a list after multiplying each element by a constant. -/
theorem sum_map_mul_const (l : List ℚ) (c : ℚ) :
    (l.map (fun w => w * c)).sum = l.sum * c := by
  induction l with
  | nil => simp
  | cons a t ih => simp [ih, add_mul]

/-- The geometric tail weights are positive, so their sum is positive for a
nonempty tail. -/
theorem tail_sum_pos (t : ℕ) (ht : 1 ≤ t) :
    0 < ((List.range' 1 t).map (fun j => ((17 : ℚ)/20) ^ (j - 1))).sum := by
  apply List.sum_pos
  · intro a ha
    rcases List.mem_map.mp ha with ⟨j, _, rfl⟩
    positivity
  · intro hcon
    have : ((List.range' 1 t).map (fun j => ((17 : ℚ)/20) ^ (j - 1))).length = t := by
      simp
    rw [hcon] at this
    simp at this
    omega

/-- Branch shape of the source weight function for cardinality at least 4. -/
theorem GenerateBulk.compute_ge_four (K : ℕ) (h4 : 4 ≤ K) :
    GenerateBulk.compute_skewed_probabilities K
      = [3/10, 1/5, 1/10] ++
        ((List.range' 1 (K - 3)).map (fun j => ((17 : ℚ)/20) ^ (j - 1))).map
          (fun w =>
            (2/5) * (w / ((List.range' 1 (K - 3)).map (fun j => ((17 : ℚ)/20) ^ (j - 1))).sum)) := by
  have h1 : K ≠ 1 := by omega
  have h2 : K ≠ 2 := by omega
  have h3 : K ≠ 3 := by omega
  simp only [GenerateBulk.compute_skewed_probabilities, if_neg h1, if_neg h2, if_neg h3]

/-- Branch shape of the spec rank-weight rule for cardinality at least 4. -/
theorem specRankWeights_ge_four (K : ℕ) (h4 : 4 ≤ K) :
    specRankWeights K
      = [3/10, 1/5, 1/10] ++
        (List.range' 1 (K - 3)).map
          (fun i =>
            (2/5) * ((17 : ℚ)/20) ^ (i - 1)
              / ((List.range' 1 (K - 3)).map (fun j => ((17 : ℚ)/20) ^ (j - 1))).sum) := by
  have h1 : K ≠ 1 := by omega
  have h2 : K ≠ 2 := by omega
  have h3 : K ≠ 3 := by omega
  simp only [specRankWeights, if_neg h1, if_neg h2, if_neg h3]

/-- C2: for every K ≥ 1, `compute_skewed_probabilities(K)` equals the spec's
rank-weight rule (`[1.0]` for K=1, `[0.3, 0.7]` for K=2, `[0.3, 0.2, 0.5]`
for K=3, and for K ≥ 4 the head `[0.3, 0.2, 0.1]` followed by the
0.4-scaled normalized geometric tail `0.4 * 0.85^(i-1) / Σ_j 0.85^(j-1)`),
and the whole list sums to exactly 1 (hence to 1.0 within 1e-9; rationals
model the idealized real semantics of the Python floats). -/
theorem c2_rank_weights (K : ℕ) (hK : 1 ≤ K) :
    GenerateBulk.compute_skewed_probabilities K = specRankWeights K
      ∧ (GenerateBulk.compute_skewed_probabilities K).sum = 1
      ∧ |(GenerateBulk.compute_skewed_probabilities K).sum - 1| ≤ 1 / 1000000000 := by
  by_cases h1 : K = 1
  · subst h1
    refine ⟨by norm_num [GenerateBulk.compute_skewed_probabilities, specRankWeights], ?_, ?_⟩ <;>
      norm_num [GenerateBulk.compute_skewed_probabilities]
  · by_cases h2 : K = 2
    · subst h2
      refine ⟨by norm_num [GenerateBulk.compute_skewed_probabilities, specRankWeights], ?_, ?_⟩ <;>
        norm_num [GenerateBulk.compute_skewed_probabilities]
    · by_cases h3 : K = 3
      · subst h3
        refine ⟨by norm_num [GenerateBulk.compute_skewed_probabilities, specRankWeights], ?_, ?_⟩ <;>
          norm_num [GenerateBulk.compute_skewed_probabilities]
      · have h4 : 4 ≤ K := by omega
        have ht : 1 ≤ K - 3 := by omega
        set S : ℚ := ((List.range' 1 (K - 3)).map (fun j => ((17 : ℚ)/20) ^ (j - 1))).sum with hS
        have hSpos : 0 < S := tail_sum_pos (K - 3) ht
        have hSne : S ≠ 0 := ne_of_gt hSpos
        have heq : GenerateBulk.compute_skewed_probabilities K = specRankWeights K := by
          rw [GenerateBulk.compute_ge_four K h4, specRankWeights_ge_four K h4]
          congr 1
          rw [List.map_map]
          apply List.map_congr_left
          intro i _
          simp only [Function.comp]
          rw [mul_div_assoc]
        have hsum : (GenerateBulk.compute_skewed_probabilities K).sum = 1 := by
          rw [GenerateBulk.compute_ge_four K h4]
          rw [List.sum_append]
          have hmaps :
              (((List.range' 1 (K - 3)).map (fun j => ((17 : ℚ)/20) ^ (j - 1))).map
                  (fun w => (2/5) * (w / S))).sum = 2/5 := by
            have hfun :
                (((List.range' 1 (K - 3)).map (fun j => ((17 : ℚ)/20) ^ (j - 1))).map
                    (fun w => (2/5) * (w / S)))
                  = (((List.range' 1 (K - 3)).map (fun j => ((17 : ℚ)/20) ^ (j - 1))).map
                    (fun w => w * ((2/5) / S))) := by
              apply List.map_congr_left
              intro w _
              field_simp
              ring
            rw [hfun, sum_map_mul_const, ← hS]
            field_simp
            ring
          rw [← hS, hmaps]
          norm_num
        exact ⟨heq, hsum, by rw [hsum]; norm_num⟩

/-- Witness for C2 at the concrete cardinality K = 5. -/
theorem c2_rank_weights_witness :
    1 ≤ 5
      ∧ (GenerateBulk.compute_skewed_probabilities 5 = specRankWeights 5
          ∧ (GenerateBulk.compute_skewed_probabilities 5).sum = 1
          ∧ |(GenerateBulk.compute_skewed_probabilities 5).sum - 1| ≤ 1 / 1000000000) :=
  ⟨by norm_num, c2_rank_weights 5 (by norm_num)⟩

/-- The two duplicated weight functions are the same function. -/
theorem gq_compute_eq :
    GenerateQueries.compute_skewed_probabilities
      = GenerateBulk.compute_skewed_probabilities := rfl

/-- Conversion between the structurally identical sampler classes of the
two generator modules. -/
def convSampler (s : GenerateBulk.SkewedSampler) : GenerateQueries.SkewedSampler :=
  ⟨s.values, s.rng, s.probs⟩

/-- Constructing a sampler in either module from the same pair gives
convertible results. -/
theorem convSampler_init (values : List String) (seed : ℤ) :
    convSampler (GenerateBulk.SkewedSampler.init values seed)
      = GenerateQueries.SkewedSampler.init values seed := rfl

/-- Sampling commutes with the sampler conversion. -/
theorem convSampler_sample (sp : GenerateBulk.SkewedSampler) :
    (convSampler sp).sample
      = match sp.sample with
        | .error e => .error e
        | .ok (v, sp') => .ok (v, convSampler sp') := by
  cases sp with
  | mk values rng probs =>
    simp only [GenerateBulk.SkewedSampler.sample, GenerateQueries.SkewedSampler.sample,
      convSampler]
    cases h : rng.choices1 values probs with
    | error e => rfl
    | ok p => cases p; rfl

/-- Draw sequences agree across the two modules' samplers. -/
theorem convSampler_sampleN (sp : GenerateBulk.SkewedSampler) (n : ℕ) :
    GenerateQueries.sampleN (convSampler sp) n = GenerateBulk.sampleN sp n := by
  induction n generalizing sp with
  | zero => rfl
  | succ m ih =>
    simp only [GenerateQueries.sampleN, GenerateBulk.sampleN, convSampler_sample]
    cases h : sp.sample with
    | error e => rfl
    | ok p =>
      cases p with
      | mk v sp' => simp [ih sp']

/-- Mapping a value transformation under `dictInsert` commutes. -/
theorem dictInsert_map {α β : Type} (f : α → β) (d : List (String × α)) (k : String) (v : α) :
    dictInsert (d.map (Prod.map id f)) k (f v) = (dictInsert d k v).map (Prod.map id f) := by
  have hkeys : (d.map (Prod.map id f)).map Prod.fst = d.map Prod.fst := by
    rw [List.map_map]
    apply List.map_congr_left
    intro p _
    rfl
  unfold dictInsert
  rw [hkeys]
  by_cases hmem : k ∈ d.map Prod.fst
  · simp only [if_pos hmem]
    rw [List.map_map, List.map_map]
    apply List.map_congr_left
    intro p _
    by_cases hp : p.1 = k
    · simp [Function.comp, Prod.map, hp]
    · simp [Function.comp, Prod.map, hp]
  · simp [if_neg hmem, Prod.map]

/-- Looking up in a value-mapped dict. -/
theorem lookup_map_value {α β : Type} (f : α → β) (d : List (String × α)) (k : String) :
    (d.map (Prod.map id f)).lookup k = (d.lookup k).map f := by
  induction d with
  | nil => rfl
  | cons a t ih =>
    obtain ⟨a1, a2⟩ := a
    by_cases hk : k = a1
    · subst hk; simp [List.lookup_cons, Prod.map]
    · have hb : (k == a1) = false := beq_eq_false_iff_ne.mpr hk
      simp [List.lookup_cons, Prod.map, hb, ih]

/-- The sampler dicts built by the two modules from the same catalog, base
seed, and hash function are conversions of one another. -/
theorem buildSamplers_conv (fields : Catalog) (seed : ℤ) (h : String → ℤ) :
    GenerateQueries.buildSamplers fields seed h
      = (GenerateBulk.buildSamplers fields seed h).map (Prod.map id convSampler) := by
  unfold GenerateQueries.buildSamplers GenerateBulk.buildSamplers
  have main : ∀ (fs : Catalog) (acc : GenerateBulk.Samplers),
      fs.foldl
          (fun smps p =>
            dictInsert smps p.1 (GenerateQueries.SkewedSampler.init p.2 (field_seed seed h p.1)))
          (acc.map (Prod.map id convSampler))
        = (fs.foldl
            (fun smps p =>
              dictInsert smps p.1 (GenerateBulk.SkewedSampler.init p.2 (field_seed seed h p.1)))
            acc).map (Prod.map id convSampler) := by
    intro fs
    induction fs with
    | nil => intro acc; rfl
    | cons p rest ih =>
      intro acc
      simp only [List.foldl_cons]
      rw [← convSampler_init, dictInsert_map]
      exact ih _
  simpa using main fields []

/-- C1: two samplers constructed from an identical `(values, seed)` pair
produce identical draw sequences however often they are sampled — in the
pure embedding a sampler's draws are a function of `(values, seed)` alone,
and the two duplicated `SkewedSampler` classes (`generate_bulk.py` and
`generate_queries.py`) realize the same function.  Consequently, given the
same field catalog, base seed, and string-hash function, the document
generator's per-field samplers and the query generator's per-field samplers
produce identical draw sequences when invoked the same number of times in
the same order.  (The hash function is a shared parameter here; its
per-process instability is settled separately under C3.) -/
theorem c1_sampler_reproducibility :
    (∀ (values : List String) (seed : ℤ) (n : ℕ),
        GenerateBulk.drawSeq values seed n = GenerateQueries.drawSeq values seed n)
    ∧ (∀ (h : String → ℤ) (seed : ℤ) (fields : Catalog) (f : String) (n : ℕ),
        ((GenerateBulk.buildSamplers fields seed h).lookup f).map
            (fun sp => GenerateBulk.sampleN sp n)
          = ((GenerateQueries.buildSamplers fields seed h).lookup f).map
            (fun sp => GenerateQueries.sampleN sp n)) := by
  constructor
  · intro values seed n
    rw [GenerateBulk.drawSeq, GenerateQueries.drawSeq, ← convSampler_init,
      convSampler_sampleN]
  · intro h seed fields f n
    rw [buildSamplers_conv, lookup_map_value]
    cases (GenerateBulk.buildSamplers fields seed h).lookup f with
    | none => rfl
    | some sp => simp [convSampler_sampleN]

/-- C3 (code bug): the derived per-field sampler seed is
`seed + hash(field_name) % 2**31` with Python's built-in salted string
hash, so it is a function of the per-process hash as well — two process
runs whose hash functions differ at a field name derive different sampler
seeds from the same `(base_seed, field_name)` pair, contradicting the
claimed stability across process runs and platforms. -/
theorem c3_seed_depends_on_process_hash :
    field_seed 42 (fun _ => 1) "status" ≠ field_seed 42 (fun _ => 2) "status"
      ∧ field_seed 42 (fun _ => 1) "status" = 43
      ∧ field_seed 42 (fun _ => 2) "status" = 44 := by
  refine ⟨?_, by decide, by decide⟩
  decide

/-- C8 counterexample: calling the weight function with cardinality K = 0
(the only way `len(values) < 1` arises) does not fail at all — the Python
code falls into the K ≥ 4 branch with an empty tail and silently returns
the fixed head `[0.3, 0.2, 0.1]`; likewise `SkewedSampler([], seed)`
constructs successfully (no `EmptyValueSet` is raised), storing an empty
value list next to a length-3 weight list. -/
theorem c8_counterexample :
    GenerateBulk.compute_skewed_probabilities 0 = [3/10, 1/5, 1/10]
      ∧ (GenerateBulk.SkewedSampler.init [] 7).values = []
      ∧ (GenerateBulk.SkewedSampler.init [] 7).probs = [3/10, 1/5, 1/10] := by
  have hc : GenerateBulk.compute_skewed_probabilities 0 = [3/10, 1/5, 1/10] := by
    norm_num [GenerateBulk.compute_skewed_probabilities, List.range']
  exact ⟨hc, rfl, hc⟩

/-- C8 amended: `compute_skewed_probabilities` performs no cardinality
validation — for K = 0 it returns `[0.3, 0.2, 0.1]` without error — and the
sampler constructor performs no emptiness validation: construction from an
empty value sequence succeeds, and the failure surfaces only when
`sample()` is first called, as the generic `choices` length-mismatch
`ValueError`, not as a dedicated `EmptyValueSet` error. -/
theorem c8_amended (seed : ℤ) :
    GenerateBulk.compute_skewed_probabilities 0 = [3/10, 1/5, 1/10]
      ∧ (GenerateBulk.SkewedSampler.init [] seed).probs.length = 3
      ∧ (GenerateBulk.SkewedSampler.init [] seed).sample
          = .error "The number of weights does not match the population" := by
  have hc : GenerateBulk.compute_skewed_probabilities 0 = [3/10, 1/5, 1/10] := by
    norm_num [GenerateBulk.compute_skewed_probabilities, List.range']
  refine ⟨hc, ?_, ?_⟩
  · show (GenerateBulk.compute_skewed_probabilities 0).length = 3
    rw [hc]
    rfl
  · show (GenerateBulk.SkewedSampler.init [] seed).sample = _
    simp only [GenerateBulk.SkewedSampler.init, GenerateBulk.SkewedSampler.sample,
      PyRandom.choices1, hc]
    rfl

/-- C9 (code bug): when the HTTP POST of a chunk raises (timeout or
connection error), `bulk_ingest`'s exception handler prints a diagnostic
and calls `sys.exit(1)` without re-enabling `index.refresh_interval` — the
loader terminates with the interval still set to `"-1"`, contradicting the
scoped acquire/release the claim requires.  Concrete run: two bulk lines,
chunk size one, first POST raises. -/
theorem c9_refresh_left_disabled :
    IndexData.bulk_ingest 2 1 (fun _ => none)
        = (IndexData.IngestOutcome.exited 1,
            [IndexData.NetEvent.putSettings "-1", IndexData.NetEvent.postBulk 0])
      ∧ IndexData.refreshDisabledAtEnd
          [IndexData.NetEvent.putSettings "-1", IndexData.NetEvent.postBulk 0] = true := by
  exact ⟨by decide, by decide⟩

/-- An element fetched with a default that itself belongs to the list is
always an element of the list. -/
theorem getD_mem (l : List String) (i : ℕ) (d : String) (hd : d ∈ l) : l.getD i d ∈ l := by
  by_cases h : i < l.length
  · have : l.getD i d = l[i] := by
      simp [List.getD_eq_getElem?_getD, List.getElem?_eq_getElem h]
    rw [this]
    exact List.getElem_mem h
  · have : l[i]? = none := List.getElem?_eq_none (le_of_not_lt h)
    rw [List.getD_eq_getElem?_getD, this]
    exact hd

/-- In a catalog with pairwise-distinct field names, the value list of a
field is unique. -/
theorem nodup_key_unique {α : Type} {fields : List (String × α)} {f : String} {vs ws : α}
    (hnd : (fields.map Prod.fst).Nodup) (h1 : (f, vs) ∈ fields) (h2 : (f, ws) ∈ fields) :
    vs = ws := by
  induction fields with
  | nil => cases h1
  | cons p rest ih =>
    obtain ⟨a, b⟩ := p
    have hnd' : (rest.map Prod.fst).Nodup := (List.nodup_cons.mp (by simpa using hnd)).2
    have hnotin : a ∉ rest.map Prod.fst := (List.nodup_cons.mp (by simpa using hnd)).1
    rcases List.mem_cons.mp h1 with he1 | ht1 <;> rcases List.mem_cons.mp h2 with he2 | ht2
    · cases he1; cases he2; rfl
    · cases he1
      exact absurd (List.mem_map_of_mem Prod.fst ht2) hnotin
    · cases he2
      exact absurd (List.mem_map_of_mem Prod.fst ht1) hnotin
    · exact ih hnd' ht1 ht2

namespace GenerateBulk

/-- The weight list has one entry per value for every positive cardinality. -/
theorem length_compute (K : ℕ) (hK : 1 ≤ K) :
    (compute_skewed_probabilities K).length = K := by
  by_cases h1 : K = 1
  · subst h1; rfl
  · by_cases h2 : K = 2
    · subst h2; rfl
    · by_cases h3 : K = 3
      · subst h3; rfl
      · have h4 : 4 ≤ K := by omega
        rw [compute_ge_four K h4]
        simp
        omega

/-- Invariant tying a sampler dict to the catalog: every catalog field has a
sampler holding exactly that field's value list and the matching weight
list. -/
def SamplersOK (fields : Catalog) (smps : Samplers) : Prop :=
  ∀ f vs, (f, vs) ∈ fields →
    ∃ sp, smps.lookup f = some sp ∧ sp.values = vs
      ∧ sp.probs = compute_skewed_probabilities vs.length

/-- A sampler over a nonempty value list with the matching weight list
draws successfully, returns a catalog value, and keeps its value and weight
lists. -/
theorem sample_spec (sp : SkewedSampler) (vs : List String) (hv : sp.values = vs)
    (hne : vs ≠ []) (hp : sp.probs = compute_skewed_probabilities vs.length) :
    ∃ v sp', sp.sample = .ok (v, sp') ∧ v ∈ vs ∧ sp'.values = vs ∧ sp'.probs = sp.probs := by
  obtain ⟨values, rng, probs⟩ := sp
  simp only at hv hp
  subst hv
  cases values with
  | nil => exact absurd rfl hne
  | cons p ps =>
    have hK : 1 ≤ (p :: ps).length := by simp
    have hlen : probs.length = (p :: ps).length := by
      rw [hp]
      exact length_compute _ hK
    have hcond : ¬ ((p :: ps).length ≠ probs.length) := by
      rw [hlen]
      exact fun hh => hh rfl
    have hch : PyRandom.choices1 rng (p :: ps) probs
        = .ok ((p :: ps).getD (rng.next.1 % (p :: ps).length) p, rng.next.2) := by
      rw [PyRandom.choices1, if_neg hcond]
    refine ⟨(p :: ps).getD (rng.next.1 % (p :: ps).length) p,
      ⟨p :: ps, rng.next.2, probs⟩, ?_,
      getD_mem _ _ _ (List.mem_cons_self p ps), rfl, rfl⟩
    simp only [SkewedSampler.sample, hch]

end GenerateBulk

namespace GenerateBulk

/-- Sampling one catalog field succeeds, returns one of the field's catalog
values, and preserves the sampler-dict invariant. -/
theorem sampleField_spec (fields : Catalog) (smps : Samplers) (f : String)
    (vs : List String) (hOK : SamplersOK fields smps)
    (hnd : (fields.map Prod.fst).Nodup) (hmem : (f, vs) ∈ fields) (hne : vs ≠ []) :
    ∃ v smps', sampleField f smps = .ok (v, smps') ∧ v ∈ vs ∧ SamplersOK fields smps' := by
  obtain ⟨sp, hlook, hvals, hprobs⟩ := hOK f vs hmem
  obtain ⟨v, sp', hs, hv, hv', hp'⟩ := sample_spec sp vs hvals hne hprobs
  refine ⟨v, dictInsert smps f sp', ?_, hv, ?_⟩
  · simp only [sampleField, hlook, hs]
  · intro g ws hg
    by_cases hgf : g = f
    · subst hgf
      have hws : vs = ws := nodup_key_unique hnd hmem hg
      subst hws
      refine ⟨sp', ?_, hv', by rw [hp', hprobs]⟩
      rw [dictInsert_lookup]
      simp
    · obtain ⟨sq, hlq, hq1, hq2⟩ := hOK g ws hg
      refine ⟨sq, ?_, hq1, hq2⟩
      rw [dictInsert_lookup, if_neg hgf]
      exact hlq

/-- Keys not built by the sampler-construction fold keep their prior
binding. -/
theorem buildFrom_lookup_not_mem (seed : ℤ) (h : String → ℤ) :
    ∀ (fs : Catalog) (acc : Samplers) (g : String), g ∉ fs.map Prod.fst →
      (fs.foldl
          (fun smps p => dictInsert smps p.1 (SkewedSampler.init p.2 (field_seed seed h p.1)))
          acc).lookup g
        = acc.lookup g := by
  intro fs
  induction fs with
  | nil => intro acc g _; rfl
  | cons p rest ih =>
    intro acc g hg
    have hgp : g ≠ p.1 := fun hh => hg (by simp [hh])
    have hgr : g ∉ rest.map Prod.fst := fun hh => hg (by simp [hh])
    simp only [List.foldl_cons]
    rw [ih _ g hgr, dictInsert_lookup, if_neg hgp]

/-- The sampler dict built from a catalog with pairwise-distinct field
names binds each field to the sampler seeded by its derived field seed. -/
theorem buildSamplers_lookup (fields : Catalog) (seed : ℤ) (h : String → ℤ)
    (hnd : (fields.map Prod.fst).Nodup) (f : String) (vs : List String)
    (hmem : (f, vs) ∈ fields) :
    (buildSamplers fields seed h).lookup f
      = some (SkewedSampler.init vs (field_seed seed h f)) := by
  rw [buildSamplers]
  have main : ∀ (fs : Catalog) (acc : Samplers), (fs.map Prod.fst).Nodup →
      (f, vs) ∈ fs →
      (fs.foldl
          (fun smps p => dictInsert smps p.1 (SkewedSampler.init p.2 (field_seed seed h p.1)))
          acc).lookup f
        = some (SkewedSampler.init vs (field_seed seed h f)) := by
    intro fs
    induction fs with
    | nil => intro acc _ hmem'; cases hmem'
    | cons p rest ih =>
      intro acc hnd' hmem'
      have hnotin : p.1 ∉ rest.map Prod.fst := (List.nodup_cons.mp (by simpa using hnd')).1
      have hndr : (rest.map Prod.fst).Nodup := (List.nodup_cons.mp (by simpa using hnd')).2
      rcases List.mem_cons.mp hmem' with he | ht
      · have hp1 : p.1 = f := by rw [← he]
        have hp2 : p.2 = vs := by rw [← he]
        simp only [List.foldl_cons]
        rw [buildFrom_lookup_not_mem seed h rest _ f (hp1 ▸ hnotin), dictInsert_lookup,
          if_pos hp1.symm, hp1, hp2]
      · simp only [List.foldl_cons]
        exact ih _ hndr ht
  exact main fields [] hnd hmem

/-- The freshly built sampler dict satisfies the catalog invariant. -/
theorem buildSamplers_OK (fields : Catalog) (seed : ℤ) (h : String → ℤ)
    (hnd : (fields.map Prod.fst).Nodup) :
    SamplersOK fields (buildSamplers fields seed h) := by
  intro f vs hmem
  exact ⟨SkewedSampler.init vs (field_seed seed h f),
    buildSamplers_lookup fields seed h hnd f vs hmem, rfl, rfl⟩

end GenerateBulk

namespace GenerateBulk

/-- The field loop of `generate_document` succeeds on a valid catalog; every
processed field ends up bound to one of its catalog values, and unprocessed
keys keep their initial binding. -/
theorem fillDict_spec (fields : Catalog) (hnd : (fields.map Prod.fst).Nodup)
    (hvals : ∀ p ∈ fields, p.2 ≠ ([] : List String)) :
    ∀ (fs : Catalog), (∀ p ∈ fs, p ∈ fields) → (fs.map Prod.fst).Nodup →
      ∀ (smps : Samplers), SamplersOK fields smps →
        ∀ (acc : List (String × String)),
    ∃ dict smps', fillDict smps acc fs = .ok (dict, smps') ∧ SamplersOK fields smps'
      ∧ (∀ g ws, (g, ws) ∈ fs → ∃ v ∈ ws, dict.lookup g = some v)
      ∧ (∀ g, g ∉ fs.map Prod.fst → dict.lookup g = acc.lookup g) := by
  intro fs
  induction fs with
  | nil =>
    intro _ _ smps hOK acc
    exact ⟨acc, smps, rfl, hOK, by simp, fun g _ => rfl⟩
  | cons p rest ih =>
    intro hsub hndf smps hOK acc
    obtain ⟨f, vs⟩ := p
    have hmem : (f, vs) ∈ fields := hsub _ (List.mem_cons_self _ _)
    have hne : vs ≠ [] := hvals _ hmem
    obtain ⟨v, smps1, hsf, hv, hOK1⟩ := sampleField_spec fields smps f vs hOK hnd hmem hne
    have hfnotrest : f ∉ rest.map Prod.fst := (List.nodup_cons.mp (by simpa using hndf)).1
    have hndr : (rest.map Prod.fst).Nodup := (List.nodup_cons.mp (by simpa using hndf)).2
    obtain ⟨dict, smps', hrec, hOK', hmemd, hout⟩ :=
      ih (fun q hq => hsub q (List.mem_cons_of_mem _ hq)) hndr smps1 hOK1 (dictInsert acc f v)
    refine ⟨dict, smps', ?_, hOK', ?_, ?_⟩
    · simp only [fillDict, hsf, hrec]
    · intro g ws hg
      rcases List.mem_cons.mp hg with he | ht
      · have hg1 : g = f := congrArg Prod.fst he
        have hg2 : ws = vs := congrArg Prod.snd he
        subst hg1; subst hg2
        refine ⟨v, hv, ?_⟩
        rw [hout g hfnotrest, dictInsert_lookup]
        simp
      · exact hmemd g ws ht
    · intro g hg
      have hgf : g ≠ f := fun hh => hg (by simp [hh])
      have hgr : g ∉ rest.map Prod.fst := fun hh => hg (by simp [hh])
      rw [hout g hgr, dictInsert_lookup, if_neg hgf]

/-- Document synthesis on a valid catalog: it succeeds and preserves the
sampler invariant; the document's `id` attribute is the sequence identifier
except in keyword mode with a catalog field named `id`, where it is that
field's sampled catalog value. -/
theorem generate_document_spec (fields : Catalog) (hnd : (fields.map Prod.fst).Nodup)
    (hvals : ∀ p ∈ fields, p.2 ≠ ([] : List String)) (doc_id : ℕ) (mode : Mode)
    (smps : Samplers) (hOK : SamplersOK fields smps) :
    ∃ d smps', generate_document doc_id mode fields smps = .ok (d, smps')
      ∧ SamplersOK fields smps'
      ∧ ((mode = .flattened ∨ "id" ∉ fields.map Prod.fst) →
          docIdValue d = some (docIdStr doc_id))
      ∧ (∀ vs, ("id", vs) ∈ fields → mode = .keyword →
          ∃ v ∈ vs, docIdValue d = some v) := by
  cases mode with
  | keyword =>
    obtain ⟨dict, smps', hfill, hOK', hmemd, hout⟩ :=
      fillDict_spec fields hnd hvals fields (fun _ hp => hp) hnd smps hOK
        [("id", docIdStr doc_id)]
    refine ⟨.keywordDoc dict, smps', ?_, hOK', ?_, ?_⟩
    · simp only [generate_document, hfill]
    · intro hcase
      rcases hcase with hmf | hnid
      · cases hmf
      · show dict.lookup "id" = some (docIdStr doc_id)
        rw [hout "id" hnid]
        simp [List.lookup]
    · intro vs hvs _
      obtain ⟨v, hvmem, hlook⟩ := hmemd "id" vs hvs
      exact ⟨v, hvmem, hlook⟩
  | flattened =>
    obtain ⟨dict, smps', hfill, hOK', hmemd, hout⟩ :=
      fillDict_spec fields hnd hvals fields (fun _ hp => hp) hnd smps hOK []
    refine ⟨.flattenedDoc (docIdStr doc_id) dict, smps', ?_, hOK', fun _ => rfl, ?_⟩
    · simp only [generate_document, hfill]
    · intro vs _ hmf
      cases hmf

end GenerateBulk

namespace GenerateBulk

/-- The document loop on a valid catalog: it writes one action line and one
document line per sequence number, in order. -/
theorem bulkLoop_spec (mode : Mode) (idx : String) (fields : Catalog)
    (hnd : (fields.map Prod.fst).Nodup)
    (hvals : ∀ p ∈ fields, p.2 ≠ ([] : List String)) :
    ∀ (n doc_id : ℕ) (smps : Samplers), SamplersOK fields smps →
    ∃ body smps', bulkLoop mode idx fields doc_id n smps = .ok (body, smps')
      ∧ body.length = 2 * n
      ∧ ∀ j, j < n →
          body[2*j]? = some (.actionLine idx (docIdStr (doc_id + j)))
          ∧ ∃ d, body[2*j+1]? = some (.docLine d)
            ∧ ((mode = .flattened ∨ "id" ∉ fields.map Prod.fst) →
                docIdValue d = some (docIdStr (doc_id + j)))
            ∧ (∀ vs, ("id", vs) ∈ fields → mode = .keyword →
                ∃ v ∈ vs, docIdValue d = some v) := by
  intro n
  induction n with
  | zero =>
    intro doc_id smps hOK
    exact ⟨[], smps, rfl, rfl, fun j hj => absurd hj (by omega)⟩
  | succ m ih =>
    intro doc_id smps hOK
    obtain ⟨d, smps1, hgen, hOK1, hid1, hid2⟩ :=
      generate_document_spec fields hnd hvals doc_id mode smps hOK
    obtain ⟨rest, smps', hrec, hlen, hprops⟩ := ih (doc_id + 1) smps1 hOK1
    refine ⟨.actionLine idx (docIdStr doc_id) :: .docLine d :: rest, smps', ?_, ?_, ?_⟩
    · simp only [bulkLoop, hgen, hrec]
    · simp only [List.length_cons, hlen]
      omega
    · intro j hj
      cases j with
      | zero =>
        refine ⟨by simp, d, by simp, ?_, hid2⟩
        intro hcase
        simpa using hid1 hcase
      | succ i =>
        have hi : i < m := by omega
        obtain ⟨ha, d', hd', hp1, hp2⟩ := hprops i hi
        have earg : doc_id + 1 + i = doc_id + (i + 1) := by omega
        rw [earg] at ha hp1
        constructor
        · have e1 : 2*(i+1) = 2*i + 1 + 1 := by ring
          rw [e1, List.getElem?_cons_succ, List.getElem?_cons_succ]
          exact ha
        · refine ⟨d', ?_, hp1, hp2⟩
          have e2 : 2*(i+1)+1 = (2*i + 1) + 1 + 1 := by ring
          rw [e2, List.getElem?_cons_succ, List.getElem?_cons_succ]
          exact hd'

/-- Full corpus-generation run on a valid catalog: the returned line list
passes the count verification, begins with the payload line, and pairs each
action line with its document line in sequence order. -/
theorem generate_bulk_spec (mode : Mode) (idx : String) (fields : Catalog)
    (N : ℕ) (seed : ℤ) (h : String → ℤ)
    (hnd : (fields.map Prod.fst).Nodup)
    (hvals : ∀ p ∈ fields, p.2 ≠ ([] : List String)) :
    ∃ lines, generate_bulk mode idx fields N seed h = .ok lines
      ∧ lines.length = 1 + 2 * N
      ∧ lines[0]? = some (.payloadLine (create_index_payload idx mode fields))
      ∧ ∀ k, 1 ≤ k → k ≤ N →
          lines[2*k-1]? = some (.actionLine idx (docIdStr k))
          ∧ ∃ d, lines[2*k]? = some (.docLine d)
            ∧ ((mode = .flattened ∨ "id" ∉ fields.map Prod.fst) →
                docIdValue d = some (docIdStr k))
            ∧ (∀ vs, ("id", vs) ∈ fields → mode = .keyword →
                ∃ v ∈ vs, docIdValue d = some v) := by
  obtain ⟨body, smps', hloop, hlen, hprops⟩ :=
    bulkLoop_spec mode idx fields hnd hvals N 1 (buildSamplers fields seed h)
      (buildSamplers_OK fields seed h hnd)
  have hlines : (BulkLine.payloadLine (create_index_payload idx mode fields) :: body).length
      = 1 + 2 * N := by
    simp [hlen]
    omega
  refine ⟨.payloadLine (create_index_payload idx mode fields) :: body, ?_, hlines,
    by simp, ?_⟩
  · have hver : verify_line_count
        (BulkLine.payloadLine (create_index_payload idx mode fields) :: body) N = .ok () := by
      rw [verify_line_count, if_pos]
      rw [hlines]
      omega
    simp only [generate_bulk, hloop, hver]
  · intro k hk1 hkN
    have hj : k - 1 < N := by omega
    obtain ⟨ha, d, hd, hp1, hp2⟩ := hprops (k - 1) hj
    have earg : 1 + (k - 1) = k := by omega
    rw [earg] at ha hp1
    constructor
    · have e1 : 2*k-1 = 2*(k-1) + 1 := by omega
      rw [e1, List.getElem?_cons_succ]
      exact ha
    · refine ⟨d, ?_, hp1, hp2⟩
      have e2 : 2*k = (2*(k-1) + 1) + 1 := by omega
      rw [e2, List.getElem?_cons_succ]
      exact hd

end GenerateBulk

/-- C4 counterexample: for the keyword-mode catalog containing a field
literally named `id` (here `{"id": ["x"]}`), the generated document's `id`
attribute is the sampled catalog value `"x"`, not the `doc-000001`
identifier carried by the preceding action line — refuting the claimed
universal `_id`-to-document-`id` match. -/
theorem c4_counterexample :
    GenerateBulk.generate_bulk .keyword "benchmark-keyword" [("id", ["x"])] 1 0 (fun _ => 0)
      = .ok [.payloadLine ⟨"benchmark-keyword", 1, 1, false, [("id", "keyword")]⟩,
             .actionLine "benchmark-keyword" "doc-000001",
             .docLine (.keywordDoc [("id", "x")])]
      ∧ docIdValue (.keywordDoc [("id", "x")]) = some "x"
      ∧ "x" ≠ docIdStr 1 := by
  refine ⟨by decide, by decide, by decide⟩

/-- C4 amended: for every doc_count N ≥ 0, mode, valid catalog (unique field
names, every field with at least one candidate value) and seed, the corpus
has exactly `1 + 2N` lines, line 1 is the index-creation payload, and lines
2..2N+1 alternate action and document lines in sequence order with the
action `_id` equal to `doc-<6-digit zero-padded n>`; the `_id` matches the
following document's `id` in flattened mode always, and in keyword mode
provided the catalog has no field literally named `id` (a catalog field
`id` overwrites the identifier — see C10).  The post-write verification
accepts exactly the `1 + 2N` count and fails with a diagnostic otherwise. -/
theorem c4_amended_corpus_shape (mode : Mode) (idx : String) (fields : Catalog)
    (N : ℕ) (seed : ℤ) (h : String → ℤ)
    (hnd : (fields.map Prod.fst).Nodup)
    (hvals : ∀ p ∈ fields, p.2 ≠ ([] : List String)) :
    (∃ lines, GenerateBulk.generate_bulk mode idx fields N seed h = .ok lines
      ∧ lines.length = 1 + 2 * N
      ∧ lines[0]? = some (.payloadLine (GenerateBulk.create_index_payload idx mode fields))
      ∧ ∀ k, 1 ≤ k → k ≤ N →
          lines[2*k-1]? = some (.actionLine idx (docIdStr k))
          ∧ ∃ d, lines[2*k]? = some (.docLine d)
            ∧ ((mode = .flattened ∨ "id" ∉ fields.map Prod.fst) →
                docIdValue d = some (docIdStr k)))
    ∧ (∀ ls m, GenerateBulk.verify_line_count ls m = .ok () ↔ ls.length = 1 + m * 2) := by
  constructor
  · obtain ⟨lines, hgen, hlen, hhead, hk⟩ :=
      GenerateBulk.generate_bulk_spec mode idx fields N seed h hnd hvals
    refine ⟨lines, hgen, hlen, hhead, fun k h1 h2 => ?_⟩
    obtain ⟨ha, d, hd, hp1, _⟩ := hk k h1 h2
    exact ⟨ha, d, hd, hp1⟩
  · intro ls m
    rw [GenerateBulk.verify_line_count]
    by_cases hc : ls.length = 1 + m * 2
    · simp [hc]
    · simp [hc]

/-- Witness for C4 (amended) at a concrete valid catalog without an `id`
field: keyword mode, catalog `{"color": ["red"]}`, one document. -/
theorem c4_amended_corpus_shape_witness :
    ((([("color", ["red"])] : Catalog).map Prod.fst).Nodup
        ∧ (∀ p ∈ ([("color", ["red"])] : Catalog), p.2 ≠ ([] : List String)))
      ∧ ((∃ lines,
            GenerateBulk.generate_bulk .keyword "idx" [("color", ["red"])] 1 0 (fun _ => 0)
              = .ok lines
            ∧ lines.length = 1 + 2 * 1
            ∧ lines[0]?
                = some (.payloadLine
                    (GenerateBulk.create_index_payload "idx" .keyword [("color", ["red"])]))
            ∧ ∀ k, 1 ≤ k → k ≤ 1 →
                lines[2*k-1]? = some (.actionLine "idx" (docIdStr k))
                ∧ ∃ d, lines[2*k]? = some (.docLine d)
                  ∧ ((Mode.keyword = .flattened
                        ∨ "id" ∉ ([("color", ["red"])] : Catalog).map Prod.fst) →
                      docIdValue d = some (docIdStr k)))
          ∧ (∀ ls m, GenerateBulk.verify_line_count ls m = .ok () ↔ ls.length = 1 + m * 2)) :=
  ⟨⟨by decide, by decide⟩,
    c4_amended_corpus_shape .keyword "idx" [("color", ["red"])] 1 0 (fun _ => 0)
      (by decide) (by decide)⟩

/-- C10: in keyword mode, a catalog field literally named `id` overwrites
the document identifier key, so every emitted document's `id` attribute is
one of that field's sampled catalog values, while the preceding action
line's `_id` still carries the `doc-<n>` identifier; in flattened mode the
identifier is unaffected because field values are nested under `data`. -/
theorem c10_id_field_overwrite (idx : String) (fields : Catalog) (N : ℕ) (seed : ℤ)
    (h : String → ℤ) (vs : List String)
    (hnd : (fields.map Prod.fst).Nodup)
    (hvals : ∀ p ∈ fields, p.2 ≠ ([] : List String))
    (hid : ("id", vs) ∈ fields) :
    (∃ lines, GenerateBulk.generate_bulk .keyword idx fields N seed h = .ok lines
      ∧ ∀ k, 1 ≤ k → k ≤ N →
          lines[2*k-1]? = some (.actionLine idx (docIdStr k))
          ∧ ∃ d, lines[2*k]? = some (.docLine d) ∧ ∃ v ∈ vs, docIdValue d = some v)
    ∧ (∃ lines, GenerateBulk.generate_bulk .flattened idx fields N seed h = .ok lines
      ∧ ∀ k, 1 ≤ k → k ≤ N →
          ∃ d, lines[2*k]? = some (.docLine d) ∧ docIdValue d = some (docIdStr k)) := by
  constructor
  · obtain ⟨lines, hgen, _, _, hk⟩ :=
      GenerateBulk.generate_bulk_spec .keyword idx fields N seed h hnd hvals
    refine ⟨lines, hgen, fun k h1 h2 => ?_⟩
    obtain ⟨ha, d, hd, _, hp2⟩ := hk k h1 h2
    exact ⟨ha, d, hd, hp2 vs hid rfl⟩
  · obtain ⟨lines, hgen, _, _, hk⟩ :=
      GenerateBulk.generate_bulk_spec .flattened idx fields N seed h hnd hvals
    refine ⟨lines, hgen, fun k h1 h2 => ?_⟩
    obtain ⟨ha, d, hd, hp1, _⟩ := hk k h1 h2
    exact ⟨d, hd, hp1 (Or.inl rfl)⟩

/-- Witness for C10 at the concrete catalog `{"id": ["x"]}` with one
document: the sampled value `"x"` necessarily differs from `doc-000001`. -/
theorem c10_id_field_overwrite_witness :
    ((([("id", ["x"])] : Catalog).map Prod.fst).Nodup
        ∧ (∀ p ∈ ([("id", ["x"])] : Catalog), p.2 ≠ ([] : List String))
        ∧ ("id", ["x"]) ∈ ([("id", ["x"])] : Catalog))
      ∧ ((∃ lines,
            GenerateBulk.generate_bulk .keyword "idx" [("id", ["x"])] 1 0 (fun _ => 0)
              = .ok lines
            ∧ ∀ k, 1 ≤ k → k ≤ 1 →
                lines[2*k-1]? = some (.actionLine "idx" (docIdStr k))
                ∧ ∃ d, lines[2*k]? = some (.docLine d)
                  ∧ ∃ v ∈ (["x"] : List String), docIdValue d = some v)
          ∧ (∃ lines,
              GenerateBulk.generate_bulk .flattened "idx" [("id", ["x"])] 1 0 (fun _ => 0)
                = .ok lines
              ∧ ∀ k, 1 ≤ k → k ≤ 1 →
                  ∃ d, lines[2*k]? = some (.docLine d) ∧ docIdValue d = some (docIdStr k)))
      ∧ ∀ v ∈ (["x"] : List String), v ≠ docIdStr 1 :=
  ⟨⟨by decide, by decide, by decide⟩,
    c10_id_field_overwrite "idx" [("id", ["x"])] 1 0 (fun _ => 0) ["x"]
      (by decide) (by decide) (by decide),
    by decide⟩

namespace GenerateQueries

/-- The duplicated weight function also has one entry per value for every
positive cardinality. -/
theorem q_length_compute (K : ℕ) (hK : 1 ≤ K) :
    (compute_skewed_probabilities K).length = K := by
  rw [gq_compute_eq]
  exact GenerateBulk.length_compute K hK

/-- Invariant tying the query generator's sampler dict to the catalog. -/
def SamplersOK (fields : Catalog) (smps : Samplers) : Prop :=
  ∀ f vs, (f, vs) ∈ fields →
    ∃ sp, smps.lookup f = some sp ∧ sp.values = vs
      ∧ sp.probs = compute_skewed_probabilities vs.length

/-- A sampler over a nonempty value list with the matching weight list
draws successfully, returns a catalog value, and keeps its value and weight
lists. -/
theorem q_sample_spec (sp : SkewedSampler) (vs : List String) (hv : sp.values = vs)
    (hne : vs ≠ []) (hp : sp.probs = compute_skewed_probabilities vs.length) :
    ∃ v sp', sp.sample = .ok (v, sp') ∧ v ∈ vs ∧ sp'.values = vs ∧ sp'.probs = sp.probs := by
  obtain ⟨values, rng, probs⟩ := sp
  simp only at hv hp
  subst hv
  cases values with
  | nil => exact absurd rfl hne
  | cons p ps =>
    have hK : 1 ≤ (p :: ps).length := by simp
    have hlen : probs.length = (p :: ps).length := by
      rw [hp]
      exact q_length_compute _ hK
    have hcond : ¬ ((p :: ps).length ≠ probs.length) := by
      rw [hlen]
      exact fun hh => hh rfl
    have hch : PyRandom.choices1 rng (p :: ps) probs
        = .ok ((p :: ps).getD (rng.next.1 % (p :: ps).length) p, rng.next.2) := by
      rw [PyRandom.choices1, if_neg hcond]
    refine ⟨(p :: ps).getD (rng.next.1 % (p :: ps).length) p,
      ⟨p :: ps, rng.next.2, probs⟩, ?_,
      getD_mem _ _ _ (List.mem_cons_self p ps), rfl, rfl⟩
    simp only [SkewedSampler.sample, hch]

/-- Sampling one catalog field succeeds, returns one of the field's catalog
values, and preserves the sampler-dict invariant. -/
theorem q_sampleField_spec (fields : Catalog) (smps : Samplers) (f : String)
    (vs : List String) (hOK : SamplersOK fields smps)
    (hnd : (fields.map Prod.fst).Nodup) (hmem : (f, vs) ∈ fields) (hne : vs ≠ []) :
    ∃ v smps', sampleField f smps = .ok (v, smps') ∧ v ∈ vs ∧ SamplersOK fields smps' := by
  obtain ⟨sp, hlook, hvals, hprobs⟩ := hOK f vs hmem
  obtain ⟨v, sp', hs, hv, hv', hp'⟩ := q_sample_spec sp vs hvals hne hprobs
  refine ⟨v, dictInsert smps f sp', ?_, hv, ?_⟩
  · simp only [sampleField, hlook, hs]
  · intro g ws hg
    by_cases hgf : g = f
    · subst hgf
      have hws : vs = ws := nodup_key_unique hnd hmem hg
      subst hws
      refine ⟨sp', ?_, hv', by rw [hp', hprobs]⟩
      rw [dictInsert_lookup]
      simp
    · obtain ⟨sq, hlq, hq1, hq2⟩ := hOK g ws hg
      refine ⟨sq, ?_, hq1, hq2⟩
      rw [dictInsert_lookup, if_neg hgf]
      exact hlq

/-- Keys not built by the sampler-construction fold keep their prior
binding. -/
theorem q_buildFrom_lookup_not_mem (seed : ℤ) (h : String → ℤ) :
    ∀ (fs : Catalog) (acc : Samplers) (g : String), g ∉ fs.map Prod.fst →
      (fs.foldl
          (fun smps p => dictInsert smps p.1 (SkewedSampler.init p.2 (field_seed seed h p.1)))
          acc).lookup g
        = acc.lookup g := by
  intro fs
  induction fs with
  | nil => intro acc g _; rfl
  | cons p rest ih =>
    intro acc g hg
    have hgp : g ≠ p.1 := fun hh => hg (by simp [hh])
    have hgr : g ∉ rest.map Prod.fst := fun hh => hg (by simp [hh])
    simp only [List.foldl_cons]
    rw [ih _ g hgr, dictInsert_lookup, if_neg hgp]

/-- The sampler dict built from a catalog with pairwise-distinct field
names binds each field to the sampler seeded by its derived field seed. -/
theorem q_buildSamplers_lookup (fields : Catalog) (seed : ℤ) (h : String → ℤ)
    (hnd : (fields.map Prod.fst).Nodup) (f : String) (vs : List String)
    (hmem : (f, vs) ∈ fields) :
    (buildSamplers fields seed h).lookup f
      = some (SkewedSampler.init vs (field_seed seed h f)) := by
  rw [buildSamplers]
  have main : ∀ (fs : Catalog) (acc : Samplers), (fs.map Prod.fst).Nodup →
      (f, vs) ∈ fs →
      (fs.foldl
          (fun smps p => dictInsert smps p.1 (SkewedSampler.init p.2 (field_seed seed h p.1)))
          acc).lookup f
        = some (SkewedSampler.init vs (field_seed seed h f)) := by
    intro fs
    induction fs with
    | nil => intro acc _ hmem'; cases hmem'
    | cons p rest ih =>
      intro acc hnd' hmem'
      have hnotin : p.1 ∉ rest.map Prod.fst := (List.nodup_cons.mp (by simpa using hnd')).1
      have hndr : (rest.map Prod.fst).Nodup := (List.nodup_cons.mp (by simpa using hnd')).2
      rcases List.mem_cons.mp hmem' with he | ht
      · have hp1 : p.1 = f := by rw [← he]
        have hp2 : p.2 = vs := by rw [← he]
        simp only [List.foldl_cons]
        rw [q_buildFrom_lookup_not_mem seed h rest _ f (hp1 ▸ hnotin), dictInsert_lookup,
          if_pos hp1.symm, hp1, hp2]
      · simp only [List.foldl_cons]
        exact ih _ hndr ht
  exact main fields [] hnd hmem

/-- The freshly built sampler dict satisfies the catalog invariant. -/
theorem q_buildSamplers_OK (fields : Catalog) (seed : ℤ) (h : String → ℤ)
    (hnd : (fields.map Prod.fst).Nodup) :
    SamplersOK fields (buildSamplers fields seed h) := by
  intro f vs hmem
  exact ⟨SkewedSampler.init vs (field_seed seed h f),
    q_buildSamplers_lookup fields seed h hnd f vs hmem, rfl, rfl⟩

end GenerateQueries

/-- Fetching at an index below the length ignores the default. -/
theorem getD_eq_getElem (l : List String) (i : ℕ) (d : String) (h : i < l.length) :
    l.getD i d = l[i] := by
  simp [List.getD_eq_getElem?_getD, List.getElem?_eq_getElem h]

/-- In a duplicate-free list, the element at a position does not survive
erasure of that position. -/
theorem getElem_not_mem_eraseIdx :
    ∀ (l : List String), l.Nodup → ∀ i, (h : i < l.length) → l[i] ∉ l.eraseIdx i := by
  intro l
  induction l with
  | nil => intro _ i h; simp at h
  | cons x xs ih =>
    intro hnd i h
    have hx : x ∉ xs := (List.nodup_cons.mp hnd).1
    have hxs : xs.Nodup := (List.nodup_cons.mp hnd).2
    cases i with
    | zero =>
      simpa using hx
    | succ j =>
      have hj : j < xs.length := by simpa using h
      simp only [List.eraseIdx_cons_succ, List.getElem_cons_succ]
      intro hmem
      rcases List.mem_cons.mp hmem with he | ht
      · exact hx (he ▸ List.getElem_mem hj)
      · exact ih hxs j hj ht

/-- The selection loop of `random.sample`: when at most the population size
is requested, it returns exactly that many elements, all from the
population, and pairwise distinct whenever the population is. -/
theorem sampleGo_spec :
    ∀ (k : ℕ) (pop : List String) (r : PyRandom), k ≤ pop.length →
      (sampleGo k pop r).1.length = k
        ∧ (sampleGo k pop r).1 ⊆ pop
        ∧ (pop.Nodup → (sampleGo k pop r).1.Nodup) := by
  intro k
  induction k with
  | zero =>
    intro pop r _
    refine ⟨rfl, ?_, fun _ => List.nodup_nil⟩
    intro a ha
    cases ha
  | succ m ih =>
    intro pop r hk
    cases pop with
    | nil => simp at hk
    | cons p ps =>
      have hidx : r.next.1 % (p :: ps).length < (p :: ps).length :=
        Nat.mod_lt _ (by simp)
      have hchosen : (p :: ps).getD (r.next.1 % (p :: ps).length) p
          = (p :: ps)[r.next.1 % (p :: ps).length] := getD_eq_getElem _ _ _ hidx
      have hrestlen : ((p :: ps).eraseIdx (r.next.1 % (p :: ps).length)).length
          = ps.length := by
        have h1 := List.length_eraseIdx_add_one hidx
        have h2 : (p :: ps).length = ps.length + 1 := by simp
        omega
      have hk' : m ≤ ((p :: ps).eraseIdx (r.next.1 % (p :: ps).length)).length := by
        rw [hrestlen]
        simpa using hk
      obtain ⟨hl, hs, hn⟩ := ih ((p :: ps).eraseIdx (r.next.1 % (p :: ps).length)) r.next.2 hk'
      have hsubl : ((p :: ps).eraseIdx (r.next.1 % (p :: ps).length)).Sublist (p :: ps) :=
        List.eraseIdx_sublist _ _
      have hgo : sampleGo (m + 1) (p :: ps) r
          = ((p :: ps).getD (r.next.1 % (p :: ps).length) p
              :: (sampleGo m ((p :: ps).eraseIdx (r.next.1 % (p :: ps).length)) r.next.2).1,
             (sampleGo m ((p :: ps).eraseIdx (r.next.1 % (p :: ps).length)) r.next.2).2) := by
        rw [sampleGo]
      rw [hgo]
      refine ⟨by simpa using hl, ?_, ?_⟩
      · intro a ha
        rcases List.mem_cons.mp ha with he | ht
        · rw [he]
          exact getD_mem _ _ _ (List.mem_cons_self p ps)
        · exact hsubl.subset (hs ht)
      · intro hnd
        refine List.nodup_cons.mpr ⟨?_, hn (hnd.sublist hsubl)⟩
        intro hmem
        have := hs hmem
        rw [hchosen] at this
        exact getElem_not_mem_eraseIdx (p :: ps) hnd _ hidx this

/-- Python `randint` on a nonempty range: succeeds with a draw inside the
inclusive bounds. -/
theorem PyRandom.randint_spec (r : PyRandom) (a b : ℤ) (hab : a ≤ b) :
    r.randint a b = .ok (a + (r.next.1 : ℤ) % (b - a + 1), r.next.2)
      ∧ a ≤ a + (r.next.1 : ℤ) % (b - a + 1)
      ∧ a + (r.next.1 : ℤ) % (b - a + 1) ≤ b := by
  have hpos : (0 : ℤ) < b - a + 1 := by omega
  have hlo : 0 ≤ (r.next.1 : ℤ) % (b - a + 1) := Int.emod_nonneg _ (ne_of_gt hpos)
  have hhi : (r.next.1 : ℤ) % (b - a + 1) < b - a + 1 := Int.emod_lt_of_pos _ hpos
  refine ⟨?_, by omega, by omega⟩
  rw [PyRandom.randint, if_neg (not_lt.mpr hab)]

/-- Python `randint` on an empty range raises. -/
theorem PyRandom.randint_error (r : PyRandom) (a b : ℤ) (hab : b < a) :
    r.randint a b = .error "empty range for randrange" := by
  rw [PyRandom.randint, if_pos hab]

/-- Python `sample` with a feasible size: succeeds, returns exactly the
requested number of elements, all from the population, pairwise distinct
whenever the population is duplicate-free. -/
theorem PyRandom.sampleK_spec (r : PyRandom) (pop : List String) (k : ℤ)
    (h0 : 0 ≤ k) (hlen : k ≤ (pop.length : ℤ)) :
    r.sampleK pop k = .ok (sampleGo k.toNat pop r)
      ∧ ((sampleGo k.toNat pop r).1.length : ℤ) = k
      ∧ (sampleGo k.toNat pop r).1 ⊆ pop
      ∧ (pop.Nodup → (sampleGo k.toNat pop r).1.Nodup) := by
  have hk : k.toNat ≤ pop.length := by omega
  obtain ⟨hl, hs, hn⟩ := sampleGo_spec k.toNat pop r hk
  refine ⟨?_, ?_, hs, hn⟩
  · rw [PyRandom.sampleK, if_neg]
    push_neg
    exact ⟨h0, hlen⟩
  · rw [hl]
    omega

/-- Python `sample` with an infeasible size raises. -/
theorem PyRandom.sampleK_error (r : PyRandom) (pop : List String) (k : ℤ)
    (hbad : k < 0 ∨ (pop.length : ℤ) < k) :
    r.sampleK pop k = .error "Sample larger than population or is negative" := by
  rw [PyRandom.sampleK, if_pos hbad]

/-- A key of the catalog comes with its value list. -/
theorem mem_keys_exists {fields : Catalog} {f : String}
    (hf : f ∈ fields.map Prod.fst) : ∃ vs, (f, vs) ∈ fields := by
  rcases List.mem_map.mp hf with ⟨p, hp, hpf⟩
  refine ⟨p.2, ?_⟩
  rw [← hpf]
  simpa using hp

namespace GenerateQueries

/-- The value-sampling loop over the selected fields: it succeeds on
catalog fields with nonempty value lists, preserves the sampler invariant,
and binds every selected field in the value dict. -/
theorem sampleSelected_spec (fields : Catalog)
    (hnd : (fields.map Prod.fst).Nodup)
    (hvals : ∀ p ∈ fields, p.2 ≠ ([] : List String)) :
    ∀ (sel : List String), (∀ f ∈ sel, f ∈ fields.map Prod.fst) →
      ∀ (smps : Samplers), SamplersOK fields smps →
        ∀ (acc : List (String × String)),
    ∃ fv smps', sampleSelected smps acc sel = .ok (fv, smps')
      ∧ SamplersOK fields smps'
      ∧ (∀ f ∈ sel, (fv.lookup f).isSome)
      ∧ (∀ g, (acc.lookup g).isSome → (fv.lookup g).isSome) := by
  intro sel
  induction sel with
  | nil =>
    intro _ smps hOK acc
    exact ⟨acc, smps, rfl, hOK, by simp, fun g hg => hg⟩
  | cons f rest ih =>
    intro hsub smps hOK acc
    obtain ⟨vs, hvs⟩ := mem_keys_exists (hsub f (List.mem_cons_self _ _))
    have hne : vs ≠ [] := hvals _ hvs
    obtain ⟨v, smps1, hsf, _, hOK1⟩ := q_sampleField_spec fields smps f vs hOK hnd hvs hne
    obtain ⟨fv, smps', hrec, hOK', hselsome, hkeep⟩ :=
      ih (fun g hg => hsub g (List.mem_cons_of_mem _ hg)) smps1 hOK1 (dictInsert acc f v)
    refine ⟨fv, smps', ?_, hOK', ?_, ?_⟩
    · simp only [sampleSelected, hsf, hrec]
    · intro g hg
      rcases List.mem_cons.mp hg with he | ht
      · subst he
        apply hkeep
        rw [dictInsert_lookup]
        simp
      · exact hselsome g ht
    · intro g hg
      apply hkeep
      rw [dictInsert_lookup]
      by_cases hgf : g = f
      · simp [hgf]
      · rw [if_neg hgf]
        exact hg

/-- Building the term filters for the two modes from the same selection and
value dict: both succeed, the flattened terms are the keyword terms with
`data.`-prefixed paths, and the keyword term paths are exactly the selected
field names in order. -/
theorem buildTerms_pair :
    ∀ (sel : List String) (fv : List (String × String)),
      (∀ f ∈ sel, (fv.lookup f).isSome) →
    ∃ terms, buildTerms .keyword fv sel = .ok terms
      ∧ buildTerms .flattened fv sel = .ok (terms.map (fun p => ("data." ++ p.1, p.2)))
      ∧ terms.map Prod.fst = sel := by
  intro sel
  induction sel with
  | nil => exact fun fv _ => ⟨[], rfl, rfl, rfl⟩
  | cons f rest ih =>
    intro fv hsome
    obtain ⟨v, hv⟩ := Option.isSome_iff_exists.mp (hsome f (List.mem_cons_self _ _))
    obtain ⟨terms, hbk, hbf, hpaths⟩ := ih fv (fun g hg => hsome g (List.mem_cons_of_mem _ hg))
    refine ⟨(f, v) :: terms, ?_, ?_, ?_⟩
    · simp only [buildTerms, hv, hbk]
    · simp only [buildTerms, hv, hbf, List.map_cons]
    · simp [hpaths]

end GenerateQueries

/-- Extracting a membership-indexed property from a pointwise relation on
two lists. -/
theorem forall₂_mem_left {α β : Type} {R : α → β → Prop} :
    ∀ {l1 : List α} {l2 : List β}, List.Forall₂ R l1 l2 →
      ∀ a ∈ l1, ∃ b ∈ l2, R a b := by
  intro l1
  induction l1 with
  | nil => intro l2 _ a ha; cases ha
  | cons x xs ih =>
    intro l2 hf a ha
    cases hf with
    | cons hxy hrest =>
      rcases List.mem_cons.mp ha with he | ht
      · subst he
        exact ⟨_, List.mem_cons_self _ _, hxy⟩
      · obtain ⟨b, hb, hr⟩ := ih hrest a ht
        exact ⟨b, List.mem_cons_of_mem _ hb, hr⟩

/-- The mirror of `forall₂_mem_left` for the right list. -/
theorem forall₂_mem_right {α β : Type} {R : α → β → Prop} :
    ∀ {l1 : List α} {l2 : List β}, List.Forall₂ R l1 l2 →
      ∀ b ∈ l2, ∃ a ∈ l1, R a b := by
  intro l1
  induction l1 with
  | nil => intro l2 hf b hb; cases hf; cases hb
  | cons x xs ih =>
    intro l2 hf b hb
    cases hf with
    | cons hxy hrest =>
      rcases List.mem_cons.mp hb with he | ht
      · subst he
        exact ⟨x, List.mem_cons_self _ _, hxy⟩
      · obtain ⟨a, ha, hr⟩ := ih hrest b ht
        exact ⟨a, List.mem_cons_of_mem _ ha, hr⟩

namespace GenerateQueries

/-- The per-query loop on a valid catalog and feasible filter bounds: every
iteration succeeds; the two produced query lists pair up index-by-index
with identical filters up to the `data.` path prefix, distinct fields
drawn from the catalog, and filter counts inside the configured bounds. -/
theorem queryLoop_spec (kwIdx flIdx : String) (fields : Catalog)
    (hnd : (fields.map Prod.fst).Nodup)
    (hvals : ∀ p ∈ fields, p.2 ≠ ([] : List String))
    (minf maxf : ℤ) (h1 : 1 ≤ minf) (h2 : minf ≤ maxf)
    (h3 : maxf ≤ (fields.length : ℤ)) :
    ∀ (n : ℕ) (smps : Samplers) (rng : PyRandom), SamplersOK fields smps →
    ∃ kws fls,
      queryLoop kwIdx flIdx (fields.map Prod.fst) minf maxf n smps rng = .ok (kws, fls)
      ∧ kws.length = n ∧ fls.length = n
      ∧ List.Forall₂ (fun qk qf =>
          qk.index = kwIdx ∧ qf.index = flIdx
          ∧ qk.track_total_hits = false ∧ qf.track_total_hits = false
          ∧ qf.filter = qk.filter.map (fun p => ("data." ++ p.1, p.2))
          ∧ (qk.filter.map Prod.fst).Nodup
          ∧ (∀ f ∈ qk.filter.map Prod.fst, f ∈ fields.map Prod.fst)
          ∧ minf ≤ (qk.filter.length : ℤ) ∧ (qk.filter.length : ℤ) ≤ maxf) kws fls := by
  intro n
  induction n with
  | zero =>
    intro smps rng _
    exact ⟨[], [], rfl, rfl, rfl, List.Forall₂.nil⟩
  | succ m ih =>
    intro smps rng hOK
    obtain ⟨hri, hlo, hhi⟩ := PyRandom.randint_spec rng minf maxf h2
    set nf := minf + (rng.next.1 : ℤ) % (maxf - minf + 1) with hnf
    have h0 : 0 ≤ nf := by omega
    have hle : nf ≤ ((fields.map Prod.fst).length : ℤ) := by
      have hflen : ((fields.map Prod.fst).length : ℤ) = (fields.length : ℤ) := by simp
      omega
    obtain ⟨hsk, hsellen, hsub, hnodupf⟩ :=
      PyRandom.sampleK_spec rng.next.2 (fields.map Prod.fst) nf h0 hle
    set sel := (sampleGo nf.toNat (fields.map Prod.fst) rng.next.2).1 with hsel
    set rng2 := (sampleGo nf.toNat (fields.map Prod.fst) rng.next.2).2 with hrng2
    have hsk' : rng.next.2.sampleK (fields.map Prod.fst) nf = .ok (sel, rng2) := hsk
    obtain ⟨fv, smps', hss, hOK', hselsome, _⟩ :=
      sampleSelected_spec fields hnd hvals sel hsub smps hOK []
    obtain ⟨terms, hbk, hbf, hpaths⟩ := buildTerms_pair sel fv hselsome
    obtain ⟨kws, fls, hloop, hlk, hlf, hfa⟩ := ih smps' rng2 hOK'
    have htermlen : terms.length = sel.length := by
      rw [← hpaths, List.length_map]
    have htermlenZ : (terms.length : ℤ) = nf := by
      rw [htermlen]
      exact hsellen
    refine ⟨⟨kwIdx, false, terms⟩ :: kws,
      ⟨flIdx, false, terms.map (fun p => ("data." ++ p.1, p.2))⟩ :: fls, ?_, ?_, ?_, ?_⟩
    · simp only [queryLoop, hri, hsk', hss, generate_query, hbk, hbf, hloop]
    · simp [hlk]
    · simp [hlf]
    · refine List.Forall₂.cons ⟨rfl, rfl, rfl, rfl, rfl, ?_, ?_, ?_, ?_⟩ hfa
      · show (terms.map Prod.fst).Nodup
        rw [hpaths]
        exact hnodupf hnd
      · show ∀ f ∈ terms.map Prod.fst, f ∈ fields.map Prod.fst
        rw [hpaths]
        exact fun f hf => hsub hf
      · show minf ≤ ((terms.length : ℤ))
        omega
      · show ((terms.length : ℤ)) ≤ maxf
        omega

end GenerateQueries

namespace GenerateQueries

/-- Full query-generation run on a valid catalog and feasible bounds: the
source's post-loop assertions pass and the two query sets are returned. -/
theorem generate_queries_spec (kwIdx flIdx : String) (fields : Catalog)
    (qc : ℕ) (minf maxf seed : ℤ) (h : String → ℤ)
    (hnd : (fields.map Prod.fst).Nodup)
    (hvals : ∀ p ∈ fields, p.2 ≠ ([] : List String))
    (h1 : 1 ≤ minf) (h2 : minf ≤ maxf) (h3 : maxf ≤ (fields.length : ℤ)) :
    ∃ kws fls, generate_queries kwIdx flIdx fields qc minf maxf seed h = .ok (kws, fls)
      ∧ kws.length = qc ∧ fls.length = qc
      ∧ List.Forall₂ (fun qk qf =>
          qk.index = kwIdx ∧ qf.index = flIdx
          ∧ qk.track_total_hits = false ∧ qf.track_total_hits = false
          ∧ qf.filter = qk.filter.map (fun p => ("data." ++ p.1, p.2))
          ∧ (qk.filter.map Prod.fst).Nodup
          ∧ (∀ f ∈ qk.filter.map Prod.fst, f ∈ fields.map Prod.fst)
          ∧ minf ≤ (qk.filter.length : ℤ) ∧ (qk.filter.length : ℤ) ≤ maxf) kws fls := by
  obtain ⟨kws, fls, hloop, hlk, hlf, hfa⟩ :=
    queryLoop_spec kwIdx flIdx fields hnd hvals minf maxf h1 h2 h3 qc
      (buildSamplers fields seed h) (mkRandom seed) (q_buildSamplers_OK fields seed h hnd)
  have hall : (kws.all fun q =>
      decide (minf ≤ (q.filter.length : ℤ)) && decide ((q.filter.length : ℤ) ≤ maxf))
        = true := by
    rw [List.all_eq_true]
    intro q hq
    obtain ⟨qf, _, hR⟩ := forall₂_mem_left hfa q hq
    obtain ⟨_, _, _, _, _, _, _, hb1, hb2⟩ := hR
    simp [hb1, hb2]
  refine ⟨kws, fls, ?_, hlk, hlf, hfa⟩
  simp only [generate_queries, hloop]
  rw [if_neg (by rw [hlk]; exact fun hh => hh rfl),
    if_neg (by rw [hlf]; exact fun hh => hh rfl),
    if_neg (by rw [hall]; simp)]

end GenerateQueries

/-- Prefixing a fixed string is injective. -/
theorem data_prefix_injective : Function.Injective (fun t : String => "data." ++ t) := by
  intro a b hab
  have hd : ("data." ++ a).data = ("data." ++ b).data := congrArg String.data hab
  rw [String.data_append, String.data_append] at hd
  have htail := List.append_cancel_left hd
  cases a
  cases b
  exact congrArg String.mk htail

/-- C5: whenever `1 ≤ min_filters ≤ max_filters ≤ number of catalog fields`
(and the catalog is valid: unique field names, nonempty value lists), the
query-generation run succeeds and every produced query — in both output
sets — has a filter-term count inside `[min_filters, max_filters]` and
pairwise-distinct fields in its filter list. -/
theorem c5_filter_invariants (kwIdx flIdx : String) (fields : Catalog)
    (qc : ℕ) (minf maxf seed : ℤ) (h : String → ℤ)
    (hnd : (fields.map Prod.fst).Nodup)
    (hvals : ∀ p ∈ fields, p.2 ≠ ([] : List String))
    (h1 : 1 ≤ minf) (h2 : minf ≤ maxf) (h3 : maxf ≤ (fields.length : ℤ)) :
    ∃ kws fls,
      GenerateQueries.generate_queries kwIdx flIdx fields qc minf maxf seed h
        = .ok (kws, fls)
      ∧ (∀ q ∈ kws, (minf ≤ (q.filter.length : ℤ) ∧ (q.filter.length : ℤ) ≤ maxf)
          ∧ (q.filter.map Prod.fst).Nodup)
      ∧ (∀ q ∈ fls, (minf ≤ (q.filter.length : ℤ) ∧ (q.filter.length : ℤ) ≤ maxf)
          ∧ (q.filter.map Prod.fst).Nodup) := by
  obtain ⟨kws, fls, hok, _, _, hfa⟩ :=
    GenerateQueries.generate_queries_spec kwIdx flIdx fields qc minf maxf seed h
      hnd hvals h1 h2 h3
  refine ⟨kws, fls, hok, ?_, ?_⟩
  · intro q hq
    obtain ⟨qf, _, hR⟩ := forall₂_mem_left hfa q hq
    obtain ⟨_, _, _, _, _, hnodup, _, hb1, hb2⟩ := hR
    exact ⟨⟨hb1, hb2⟩, hnodup⟩
  · intro q hq
    obtain ⟨qk, _, hR⟩ := forall₂_mem_right hfa q hq
    obtain ⟨_, _, _, _, hfil, hnodup, _, hb1, hb2⟩ := hR
    have hlen : q.filter.length = qk.filter.length := by
      rw [hfil, List.length_map]
    have hmapped : q.filter.map Prod.fst
        = (qk.filter.map Prod.fst).map (fun t : String => "data." ++ t) := by
      rw [hfil, List.map_map, List.map_map]
      rfl
    refine ⟨⟨by omega, by omega⟩, ?_⟩
    rw [hmapped]
    exact hnodup.map data_prefix_injective

/-- Witness for C5 at the concrete catalog `{"a": ["x"], "b": ["y"]}` with
one query and filter bounds `[1, 2]`. -/
theorem c5_filter_invariants_witness :
    ((([("a", ["x"]), ("b", ["y"])] : Catalog).map Prod.fst).Nodup
        ∧ (∀ p ∈ ([("a", ["x"]), ("b", ["y"])] : Catalog), p.2 ≠ ([] : List String))
        ∧ (1 : ℤ) ≤ 1 ∧ (1 : ℤ) ≤ 2
        ∧ (2 : ℤ) ≤ (([("a", ["x"]), ("b", ["y"])] : Catalog).length : ℤ))
      ∧ ∃ kws fls,
          GenerateQueries.generate_queries "kw" "fl" [("a", ["x"]), ("b", ["y"])] 1 1 2 0
              (fun _ => 0)
            = .ok (kws, fls)
          ∧ (∀ q ∈ kws, ((1 : ℤ) ≤ (q.filter.length : ℤ) ∧ (q.filter.length : ℤ) ≤ 2)
              ∧ (q.filter.map Prod.fst).Nodup)
          ∧ (∀ q ∈ fls, ((1 : ℤ) ≤ (q.filter.length : ℤ) ∧ (q.filter.length : ℤ) ≤ 2)
              ∧ (q.filter.map Prod.fst).Nodup) :=
  ⟨⟨by decide, by decide, by decide, by decide, by decide⟩,
    c5_filter_invariants "kw" "fl" [("a", ["x"]), ("b", ["y"])] 1 1 2 0 (fun _ => 0)
      (by decide) (by decide) (by decide) (by decide) (by decide)⟩

/-- C6: the keyword-mode and flattened-mode query produced at each index
carry term filters on exactly the same selected fields with exactly the
same sampled values in the same order — the flattened filter list is the
keyword filter list with each term path prefixed by `data.` — the keyword
paths are bare catalog field names, and both bodies disable
`track_total_hits`. -/
theorem c6_mode_pairing (kwIdx flIdx : String) (fields : Catalog)
    (qc : ℕ) (minf maxf seed : ℤ) (h : String → ℤ)
    (hnd : (fields.map Prod.fst).Nodup)
    (hvals : ∀ p ∈ fields, p.2 ≠ ([] : List String))
    (h1 : 1 ≤ minf) (h2 : minf ≤ maxf) (h3 : maxf ≤ (fields.length : ℤ)) :
    ∃ kws fls,
      GenerateQueries.generate_queries kwIdx flIdx fields qc minf maxf seed h
        = .ok (kws, fls)
      ∧ List.Forall₂ (fun qk qf =>
          qf.filter = qk.filter.map (fun p => ("data." ++ p.1, p.2))
          ∧ (∀ f ∈ qk.filter.map Prod.fst, f ∈ fields.map Prod.fst)
          ∧ qk.track_total_hits = false ∧ qf.track_total_hits = false
          ∧ qk.index = kwIdx ∧ qf.index = flIdx) kws fls := by
  obtain ⟨kws, fls, hok, _, _, hfa⟩ :=
    GenerateQueries.generate_queries_spec kwIdx flIdx fields qc minf maxf seed h
      hnd hvals h1 h2 h3
  refine ⟨kws, fls, hok, ?_⟩
  refine hfa.imp ?_
  intro qk qf hR
  obtain ⟨hi1, hi2, ht1, ht2, hfil, _, hsub, _, _⟩ := hR
  exact ⟨hfil, hsub, ht1, ht2, hi1, hi2⟩

/-- Witness for C6 at the concrete catalog `{"a": ["x"], "b": ["y"]}` with
one query and filter bounds `[2, 2]` (both fields selected). -/
theorem c6_mode_pairing_witness :
    ((([("a", ["x"]), ("b", ["y"])] : Catalog).map Prod.fst).Nodup
        ∧ (∀ p ∈ ([("a", ["x"]), ("b", ["y"])] : Catalog), p.2 ≠ ([] : List String))
        ∧ (1 : ℤ) ≤ 2 ∧ (2 : ℤ) ≤ 2
        ∧ (2 : ℤ) ≤ (([("a", ["x"]), ("b", ["y"])] : Catalog).length : ℤ))
      ∧ ∃ kws fls,
          GenerateQueries.generate_queries "kw" "fl" [("a", ["x"]), ("b", ["y"])] 1 2 2 0
              (fun _ => 0)
            = .ok (kws, fls)
          ∧ List.Forall₂ (fun qk qf =>
              qf.filter = qk.filter.map (fun p => ("data." ++ p.1, p.2))
              ∧ (∀ f ∈ qk.filter.map Prod.fst,
                  f ∈ ([("a", ["x"]), ("b", ["y"])] : Catalog).map Prod.fst)
              ∧ qk.track_total_hits = false ∧ qf.track_total_hits = false
              ∧ qk.index = "kw" ∧ qf.index = "fl") kws fls :=
  ⟨⟨by decide, by decide, by decide, by decide, by decide⟩,
    c6_mode_pairing "kw" "fl" [("a", ["x"]), ("b", ["y"])] 1 2 2 0 (fun _ => 0)
      (by decide) (by decide) (by decide) (by decide) (by decide)⟩

/-- C7 counterexample: with `query_count = 0` and `min_filters = 5 >
max_filters = 2` on a nonempty catalog, `generate_queries` raises nothing
at all — it succeeds and writes two empty query sets — refuting the claim
that the invalid filter range is detected eagerly at construction time
before any output is written. -/
theorem c7_counterexample :
    GenerateQueries.generate_queries "k" "f" [("a", ["x"])] 0 5 2 0 (fun _ => 0)
      = .ok ([], [])
      ∧ (2 : ℤ) < 5 := by
  exact ⟨by decide, by decide⟩

/-- C7 amended: `generate_queries` performs no eager validation and has no
dedicated error types; mis-configuration surfaces lazily from the stdlib
inside the per-query loop.  With at least one query requested: an inverted
filter range fails at the first query's `randint` (ValueError "empty
range"), and an empty catalog (with `min_filters ≥ 1`) fails at the first
`sample` (ValueError "sample larger than population").  With
`query_count = 0` nothing is validated: the run succeeds and writes two
empty query sets whatever the bounds. -/
theorem c7_amended (kwIdx flIdx : String) (fields : Catalog) (qc : ℕ)
    (minf maxf seed : ℤ) (h : String → ℤ) (hqc : 1 ≤ qc) :
    (maxf < minf →
      GenerateQueries.generate_queries kwIdx flIdx fields qc minf maxf seed h
        = .error "empty range for randrange")
    ∧ (fields = [] → 1 ≤ minf → minf ≤ maxf →
      GenerateQueries.generate_queries kwIdx flIdx fields qc minf maxf seed h
        = .error "Sample larger than population or is negative")
    ∧ (∀ (fs : Catalog) (mi ma s : ℤ) (hf : String → ℤ),
        GenerateQueries.generate_queries kwIdx flIdx fs 0 mi ma s hf = .ok ([], [])) := by
  obtain ⟨m, rfl⟩ : ∃ m, qc = m + 1 := ⟨qc - 1, by omega⟩
  refine ⟨?_, ?_, ?_⟩
  · intro hlt
    have hloop : GenerateQueries.queryLoop kwIdx flIdx (fields.map Prod.fst) minf maxf
        (m + 1) (GenerateQueries.buildSamplers fields seed h) (mkRandom seed)
          = .error "empty range for randrange" := by
      simp only [GenerateQueries.queryLoop, PyRandom.randint_error _ _ _ hlt]
    simp only [GenerateQueries.generate_queries, hloop]
  · intro hfe h1 h2
    subst hfe
    obtain ⟨hri, hlo, _⟩ := PyRandom.randint_spec (mkRandom seed) minf maxf h2
    have hsk : (mkRandom seed).next.2.sampleK
        (([] : Catalog).map Prod.fst)
        (minf + ((mkRandom seed).next.1 : ℤ) % (maxf - minf + 1))
          = .error "Sample larger than population or is negative" := by
      apply PyRandom.sampleK_error
      right
      simp
      omega
    have hloop : GenerateQueries.queryLoop kwIdx flIdx (([] : Catalog).map Prod.fst)
        minf maxf (m + 1) (GenerateQueries.buildSamplers [] seed h) (mkRandom seed)
          = .error "Sample larger than population or is negative" := by
      simp only [GenerateQueries.queryLoop, hri, hsk]
    simp only [GenerateQueries.generate_queries, hloop]
  · intro fs mi ma s hf
    rfl

/-- Witness for C7 (amended): both lazy-failure branches evaluated at
concrete inputs. -/
theorem c7_amended_witness :
    1 ≤ 1
      ∧ GenerateQueries.generate_queries "k" "f" [("a", ["x"])] 1 5 2 0 (fun _ => 0)
          = .error "empty range for randrange"
      ∧ GenerateQueries.generate_queries "k" "f" [] 1 1 1 0 (fun _ => 0)
          = .error "Sample larger than population or is negative" := by
  refine ⟨by decide, ?_, ?_⟩
  · exact (c7_amended "k" "f" [("a", ["x"])] 1 5 2 0 (fun _ => 0) (by decide)).1 (by decide)
  · exact ((c7_amended "k" "f" [] 1 1 1 0 (fun _ => 0) (by decide)).2).1 rfl (by decide) (by decide)
